import Mathlib

/-!
The structural checks of go-structural on Go source files.

A shallow embedding of the `checks` package of go-structural (the naming
prefix check, the parameter count check and the declaration ordering check)
together with the part of `go/ast` and `go/token` the checks read.

Conventions of the embedding.

* A Go `string` is a sequence of bytes (`GoString`); indexing and slicing a
  string are byte operations, exactly as in Go.  String constants of the source
  are written as Lean string literals and encoded as UTF-8 by `goString`.
* Go `int` values are `Int`.  The only arithmetic in the checks is a sum of
  slice lengths, which cannot overflow for slices that fit in memory.
* A `for ... range` loop that appends to a slice is a left fold whose state is
  the tuple of the variables the loop body assigns.
* `fmt.Sprintf` with `%s` and `%d` verbs only is the concatenation of the
  literal pieces of the format and the rendered arguments.
-/

/-! ## Go strings -/

/-- A byte of a Go string. -/
abbrev Byte := Fin 256

/-- A Go string: an immutable sequence of bytes. -/
abbrev GoString := List Byte

/-- UTF-8 encoding of one code point (as `utf8.AppendRune` for a valid rune). -/
def utf8EncodeRune (r : Nat) : List Byte :=
  if r < 0x80 then [Fin.ofNat r]
  else if r < 0x800 then [Fin.ofNat (0xC0 + r / 64), Fin.ofNat (0x80 + r % 64)]
  else if r < 0x10000 then
    [Fin.ofNat (0xE0 + r / 4096), Fin.ofNat (0x80 + r / 64 % 64), Fin.ofNat (0x80 + r % 64)]
  else
    [Fin.ofNat (0xF0 + r / 262144), Fin.ofNat (0x80 + r / 4096 % 64),
      Fin.ofNat (0x80 + r / 64 % 64), Fin.ofNat (0x80 + r % 64)]

/-- The Go string written by a source literal: the UTF-8 bytes of its text. -/
def goString (s : String) : GoString :=
  (s.toList.map (fun ch => utf8EncodeRune ch.toNat)).flatten

/-- Decoding of the first UTF-8 encoded code point of a string (as
`utf8.DecodeRuneInString` on well-formed input); `none` on the empty string and
on a malformed first sequence. -/
def utf8DecodeRune (s : GoString) : Option Nat :=
  match s with
  | [] => none
  | b0 :: rest =>
    if b0.val < 0x80 then some b0.val
    else if 0xC2 ≤ b0.val ∧ b0.val < 0xE0 then
      match rest with
      | b1 :: _ =>
        if 0x80 ≤ b1.val ∧ b1.val < 0xC0 then some ((b0.val - 0xC0) * 64 + (b1.val - 0x80))
        else none
      | _ => none
    else if 0xE0 ≤ b0.val ∧ b0.val < 0xF0 then
      match rest with
      | b1 :: b2 :: _ =>
        if 0x80 ≤ b1.val ∧ b1.val < 0xC0 ∧ 0x80 ≤ b2.val ∧ b2.val < 0xC0 then
          some ((b0.val - 0xE0) * 4096 + (b1.val - 0x80) * 64 + (b2.val - 0x80))
        else none
      | _ => none
    else if 0xF0 ≤ b0.val ∧ b0.val < 0xF5 then
      match rest with
      | b1 :: b2 :: b3 :: _ =>
        if 0x80 ≤ b1.val ∧ b1.val < 0xC0 ∧ 0x80 ≤ b2.val ∧ b2.val < 0xC0
            ∧ 0x80 ≤ b3.val ∧ b3.val < 0xC0 then
          some ((b0.val - 0xF0) * 262144 + (b1.val - 0x80) * 4096 + (b2.val - 0x80) * 64
            + (b3.val - 0x80))
        else none
      | _ => none
    else none

/-- Decimal rendering of a natural number (the digits of `%d`). -/
def formatNat (n : Nat) : GoString :=
  (Nat.toDigits 10 n).map (fun ch => Fin.ofNat ch.toNat)

/-- Rendering of a Go `int` by the `%d` verb of `fmt.Sprintf`. -/
def formatInt (n : Int) : GoString :=
  if n < 0 then goString "-" ++ formatNat n.natAbs else formatNat n.natAbs

/-! ## go/token -/

namespace token

/-- A source position handle (`token.Pos`). -/
abbrev Pos := Int

/-- The resolved position (`token.Position`); the checks read `Line` only. -/
structure Position where
  Line : Int
deriving DecidableEq, Repr

/-- A file set, seen through its method `Position`. -/
structure FileSet where
  Position : Pos → token.Position

/-- The tokens a `GenDecl` may carry: the four declaration keywords, and any
other token value. -/
inductive Token where
  | IMPORT
  | CONST
  | TYPE
  | VAR
  | OTHER (code : Nat)
deriving DecidableEq, Repr

end token

/-! ## go/ast -/

namespace ast

/-- An identifier (`ast.Ident`). -/
structure Ident where
  Name : GoString
deriving DecidableEq, Repr

/-- Expressions and types, as far as the checks distinguish them. -/
inductive Expr where
  | Ident (name : GoString)
  | InterfaceType
  | StructType
  | ParenExpr (x : Expr)
  | StarExpr (x : Expr)
  | Ellipsis (elt : Expr)
  | OtherExpr
deriving DecidableEq, Repr

/-- A field of a field list (`ast.Field`): parameter names sharing one type. -/
structure Field where
  Names : List Ident
  Typ : Expr
deriving DecidableEq, Repr

/-- A field list (`ast.FieldList`); a nil `*ast.FieldList` is `none`. -/
structure FieldList where
  List : List Field
deriving DecidableEq, Repr

/-- A function type (`ast.FuncType`): position of the `func` keyword and the
parameters. -/
structure FuncType where
  Func : token.Pos
  Params : Option FieldList
deriving DecidableEq, Repr

/-- A function or method declaration (`ast.FuncDecl`); `Recv` is `none` for a
function and the receiver list for a method. -/
structure FuncDecl where
  Recv : Option FieldList
  Name : Ident
  Typ : FuncType
deriving DecidableEq, Repr

/-- `FuncDecl.Pos()`: the position of the declaration, that of its `func`
keyword. -/
def FuncDecl.Pos (d : FuncDecl) : token.Pos := d.Typ.Func

/-- The specs of a generic declaration (`ast.Spec`). -/
inductive Spec where
  | ImportSpec (path : GoString)
  | ValueSpec (names : List Ident)
  | TypeSpec (name : Ident) (type : Expr)
deriving DecidableEq, Repr

/-- Top-level declarations (`ast.Decl`). -/
inductive Decl where
  | GenDecl (TokPos : token.Pos) (Tok : token.Token) (Specs : List Spec)
  | FuncDecl (fn : ast.FuncDecl)
  | BadDecl (From : token.Pos)
deriving DecidableEq, Repr

/-- A parsed file (`ast.File`), seen through its top-level declarations. -/
structure File where
  Decls : List Decl
deriving DecidableEq, Repr

end ast

/-! ## checks: the violation model -/

namespace checks

/-- The severity of a violation (`type Severity string`). -/
abbrev Severity := GoString

/-- `SeverityError`: a violation that must be fixed. -/
def SeverityError : Severity := goString "error"

/-- `SeverityWarning`: a violation that should be reviewed. -/
def SeverityWarning : Severity := goString "warning"

/-- The rule name of the file ordering check. -/
def ruleFileOrdering : GoString := goString "file-ordering"

/-- The rule name of the Get-prefix naming check. -/
def ruleNoGetPrefix : GoString := goString "no-get-prefix"

/-- The rule name of the parameter count check. -/
def ruleParamCount : GoString := goString "param-count"

/-- A single structural check failure.  A field the source leaves out of a
struct literal holds its zero value, the empty string. -/
structure Violation where
  Rule : GoString
  File : GoString
  Line : Int
  Message : GoString
  Severity : Severity
  Suggestion : GoString
deriving DecidableEq, Repr

/-! ## checks: the ordering check (ordering.go) -/

/-- A category of top-level declaration (`type sectionKind int`). -/
abbrev sectionKind := Int

/-- No section classification, and the initial state. -/
def sectionNone : sectionKind := 0
/-- The import declaration block. -/
def sectionImport : sectionKind := 1
/-- The const declaration block. -/
def sectionConst : sectionKind := 2
/-- The var declaration block. -/
def sectionVar : sectionKind := 3
/-- Interface type declarations. -/
def sectionInterface : sectionKind := 4
/-- Non-interface type declarations. -/
def sectionType : sectionKind := 5
/-- Function and method declarations. -/
def sectionFunc : sectionKind := 6

/-- The checker of the section order of top-level declarations. -/
structure fileOrderingChecker where
  rule : GoString
deriving DecidableEq, Repr

/-- `isInterface`: whether a type declaration contains only interface types.
The loop returns false at the first spec that is not a `TypeSpec` or whose type
is not an `InterfaceType` node, and true when the specs are exhausted. -/
def isInterface (specs : List ast.Spec) : Bool :=
  match specs with
  | [] => true
  | .TypeSpec _ .InterfaceType :: rest => isInterface rest
  | _ :: _ => false

/-- `classify`: the section a declaration belongs to, and its position. -/
def classify (fileSet : token.FileSet) (decl : ast.Decl) : sectionKind × token.Position :=
  match decl with
  | .GenDecl tokPos tok specs =>
    let pos := fileSet.Position tokPos
    match tok with
    | .IMPORT => (sectionImport, pos)
    | .CONST => (sectionConst, pos)
    | .VAR => (sectionVar, pos)
    | .TYPE => if isInterface specs then (sectionInterface, pos) else (sectionType, pos)
    | .OTHER _ => (sectionNone, pos)
  | .FuncDecl d => (sectionFunc, fileSet.Position d.Pos)
  | .BadDecl _ => (sectionNone, ⟨0⟩)

/-- `sectionName`: a human-readable name for the section. -/
def sectionName (s : sectionKind) : GoString :=
  if s = sectionNone then goString "none"
  else if s = sectionImport then goString "imports"
  else if s = sectionConst then goString "constants"
  else if s = sectionVar then goString "variables"
  else if s = sectionInterface then goString "interfaces"
  else if s = sectionType then goString "types"
  else if s = sectionFunc then goString "functions"
  else goString "unknown"

/-- The test `fn, ok := decl.(*ast.FuncDecl); ok && fn.Name.Name == "init"` of
the ordering loop. -/
def isInitFuncDecl (decl : ast.Decl) : Bool :=
  match decl with
  | .FuncDecl fn => fn.Name.Name == goString "init"
  | _ => false

/-- The violation literal the ordering loop appends for a declaration at
position `pos` with section `section` while the high-water mark is
`lastSection`. -/
def fileOrderingChecker.violation (c : fileOrderingChecker) (filename : GoString)
    (pos : token.Position) (sec lastSection : sectionKind) : Violation :=
  { Rule := c.rule
    File := filename
    Line := pos.Line
    Message := sectionName sec ++ goString " section appears after "
      ++ sectionName lastSection ++ goString " section"
    Severity := SeverityError
    Suggestion := [] }

/-- One iteration of the loop of `fileOrderingChecker.check` over
`file.Decls`; the state is `(violations, lastSection)`. -/
def fileOrderingChecker.checkBody (c : fileOrderingChecker) (fileSet : token.FileSet)
    (filename : GoString) (st : List Violation × sectionKind) (decl : ast.Decl) :
    List Violation × sectionKind :=
  let (violations, lastSection) := st
  let (sec, pos) := classify fileSet decl
  if sec = sectionNone then (violations, lastSection)
  else if isInitFuncDecl decl then (violations, lastSection)
  else
    let violations :=
      if sec < lastSection then violations ++ [c.violation filename pos sec lastSection]
      else violations
    let lastSection := if sec > lastSection then sec else lastSection
    (violations, lastSection)

/-- `fileOrderingChecker.check`: the violations of the section order, against
the highest section seen so far. -/
def fileOrderingChecker.check (c : fileOrderingChecker) (fileSet : token.FileSet)
    (file : ast.File) (filename : GoString) : List Violation :=
  (file.Decls.foldl (c.checkBody fileSet filename) ([], sectionNone)).1

end checks

/-! ## Library functions the naming check calls -/

namespace unicode

/-- IsUpper on a rune not above MaxLatin1, where the library answers from its
table of Latin-1 properties: the entries marked as upper case letters are
U+0041..U+005A, U+00C0..U+00D6 and U+00D8..U+00DE.  The naming check calls
IsUpper on `rune(b)` for a byte `b` of the name, so on this range only. -/
def IsUpper (r : Byte) : Bool :=
  (0x41 ≤ r.val && r.val ≤ 0x5A) || (0xC0 ≤ r.val && r.val ≤ 0xD6)
    || (0xD8 ≤ r.val && r.val ≤ 0xDE)

/-- IsLower on a rune not above MaxLatin1: the entries marked as lower case
letters are U+0061..U+007A, U+00B5, U+00DF..U+00F6 and U+00F8..U+00FF. -/
def IsLower (r : Byte) : Bool :=
  (0x61 ≤ r.val && r.val ≤ 0x7A) || r.val == 0xB5 || (0xDF ≤ r.val && r.val ≤ 0xF6)
    || (0xF8 ≤ r.val && r.val ≤ 0xFF)

end unicode

namespace strings

/-- HasPrefix: `len(s) >= len(p) && s[:len(p)] == p`. -/
def HasPrefix (s p : GoString) : Bool :=
  decide (p.length ≤ s.length) && s.take p.length == p

end strings

namespace ast

/-- The walk `ast.Inspect(file, f)` for a callback `f` that returns true at
every node and acts at `*ast.FuncDecl` nodes only, as the callbacks of the
naming check and of the parameter check do.  The walk is depth-first in source
order, and a `FuncDecl` node of a file is an element of `file.Decls`, so the
effect of the walk is the left fold of the action over the function and method
declarations among `file.Decls`. -/
def Inspect {σ : Type} (file : File) (f : σ → FuncDecl → σ) (init : σ) : σ :=
  file.Decls.foldl (fun st d =>
    match d with
    | .FuncDecl fn => f st fn
    | _ => st) init

end ast

namespace checks

/-! ## checks: the naming check (the file of prefixChecker) -/

/-- The checker of names that start with a given prefix followed by an upper
case letter.  The field `pfx` is the field named prefix in the source. -/
structure prefixChecker where
  pfx : GoString
  rule : GoString
deriving DecidableEq, Repr

/-- The method matches: whether `name` starts with the configured prefix
followed by an upper case letter.  The last line of the source is
`unicode.IsUpper(rune(name[len(c.prefix)]))`: the byte at index `len(c.prefix)`
converted to a rune. -/
def prefixChecker.matches (c : prefixChecker) (name : GoString) : Bool :=
  if !strings.HasPrefix name c.pfx then false
  else if h : name.length ≤ c.pfx.length then false
  else unicode.IsUpper (name.get ⟨c.pfx.length, Nat.lt_of_not_le h⟩)

/-- The callback of the walk of `prefixChecker.check` at a function or method
declaration. -/
def prefixChecker.visit (c : prefixChecker) (fileSet : token.FileSet) (filename : GoString)
    (violations : List Violation) (fn : ast.FuncDecl) : List Violation :=
  let name := fn.Name.Name
  if !c.matches name then violations
  else
    let suggested := name.drop c.pfx.length
    let pos := fileSet.Position fn.Pos
    violations ++
      [{ Rule := c.rule
         File := filename
         Line := pos.Line
         Message := name ++ goString "() should be " ++ suggested ++ goString "()"
         Severity := SeverityError
         Suggestion := goString "Rename to " ++ suggested ++ goString "()" }]

/-- The method check of prefixChecker: the violations of the functions and
methods whose names match the configured pattern. -/
def prefixChecker.check (c : prefixChecker) (fileSet : token.FileSet) (file : ast.File)
    (filename : GoString) : List Violation :=
  ast.Inspect file (c.visit fileSet filename) []

/-- The constructor newPrefixChecker. -/
def newPrefixChecker (pfx : GoString) (rule : GoString) : prefixChecker :=
  { pfx := pfx, rule := rule }

/-! ## checks: the parameter check (params.go) -/

/-- The checker of functions with more than `maxParams` parameters. -/
structure paramCountChecker where
  maxParams : Int
  rule : GoString
deriving DecidableEq, Repr

/-- The function countParams: the total number of individual parameters in a
field list; the loop adds 1 for a field without names and the number of names
otherwise. -/
def countParams (params : Option ast.FieldList) : Int :=
  match params with
  | none => 0
  | some fl =>
    fl.List.foldl (fun count field =>
      if field.Names.length = 0 then count + 1 else count + (field.Names.length : Int)) 0

/-- The callback of the walk of `paramCountChecker.check` at a function or
method declaration. -/
def paramCountChecker.visit (c : paramCountChecker) (fileSet : token.FileSet)
    (filename : GoString) (violations : List Violation) (fn : ast.FuncDecl) :
    List Violation :=
  let count := countParams fn.Typ.Params
  if count ≤ c.maxParams then violations
  else
    let pos := fileSet.Position fn.Pos
    violations ++
      [{ Rule := c.rule
         File := filename
         Line := pos.Line
         Message := fn.Name.Name ++ goString "() has " ++ formatInt count
           ++ goString " parameters (max " ++ formatInt c.maxParams ++ goString ")"
         Severity := SeverityError
         Suggestion := goString "Use options pattern or config struct" }]

/-- The method check of paramCountChecker: the violations of the functions
and methods that exceed the maximum parameter count. -/
def paramCountChecker.check (c : paramCountChecker) (fileSet : token.FileSet)
    (file : ast.File) (filename : GoString) : List Violation :=
  ast.Inspect file (c.visit fileSet filename) []

end checks

/-! ## The naming and parameter checks: specification vocabulary -/

namespace checks

/-- The function and method declarations of a file, in source order. -/
def funcDecls (file : ast.File) : List ast.FuncDecl :=
  file.Decls.filterMap (fun d =>
    match d with
    | .FuncDecl fn => some fn
    | _ => none)

/-- The violation the naming check builds for a declaration. -/
def prefixChecker.violation (c : prefixChecker) (fileSet : token.FileSet) (filename : GoString)
    (fn : ast.FuncDecl) : Violation :=
  { Rule := c.rule
    File := filename
    Line := (fileSet.Position fn.Pos).Line
    Message := fn.Name.Name ++ goString "() should be " ++ fn.Name.Name.drop c.pfx.length
      ++ goString "()"
    Severity := SeverityError
    Suggestion := goString "Rename to " ++ fn.Name.Name.drop c.pfx.length ++ goString "()" }

/-- The violation the parameter check builds for a declaration. -/
def paramCountChecker.violation (c : paramCountChecker) (fileSet : token.FileSet)
    (filename : GoString) (fn : ast.FuncDecl) : Violation :=
  { Rule := c.rule
    File := filename
    Line := (fileSet.Position fn.Pos).Line
    Message := fn.Name.Name ++ goString "() has " ++ formatInt (countParams fn.Typ.Params)
      ++ goString " parameters (max " ++ formatInt c.maxParams ++ goString ")"
    Severity := SeverityError
    Suggestion := goString "Use options pattern or config struct" }

/-- The number of parameters a field contributes: the number of its names, and
1 for a field without names. -/
def fieldParams (field : ast.Field) : Int :=
  if field.Names = [] then 1 else (field.Names.length : Int)

/-- A function without receiver named `name` at position `pos`, whose
parameter list has the fields `fields`. -/
def funcWithParams (pos : token.Pos) (name : String) (fields : List ast.Field) :
    ast.FuncDecl :=
  ⟨none, ⟨goString name⟩, ⟨pos, some ⟨fields⟩⟩⟩

/-- A method named `name` at position `pos` on a receiver `recv` of type
`recvType`, without parameters. -/
def methodDecl (pos : token.Pos) (recv recvType name : String) : ast.FuncDecl :=
  ⟨some ⟨[⟨[⟨goString recv⟩], .Ident (goString recvType)⟩]⟩, ⟨goString name⟩, ⟨pos, some ⟨[]⟩⟩⟩

/-- A parameter field: the names `names` sharing the type named `type`. -/
def paramField (names : List String) (type : String) : ast.Field :=
  ⟨names.map (fun n => ⟨goString n⟩), .Ident (goString type)⟩

end checks

/-! ## The ordering check: specification vocabulary -/

namespace checks

/-- The section of a declaration: the first component of `classify`. -/
def sectionOf (fileSet : token.FileSet) (decl : ast.Decl) : sectionKind :=
  (classify fileSet decl).1

/-- A declaration the ordering check skips: its section is None, or it is a
function declaration named init. -/
def skipped (fileSet : token.FileSet) (decl : ast.Decl) : Bool :=
  decide (sectionOf fileSet decl = sectionNone) || isInitFuncDecl decl

/-- The sections of the declarations that are not skipped, in source order. -/
def keptSections (fileSet : token.FileSet) (ds : List ast.Decl) : List sectionKind :=
  (ds.filter (fun d => !skipped fileSet d)).map (sectionOf fileSet)

/-- The high-water mark after the declarations `ds`: the maximum section over
the declarations of `ds` that are not skipped, None if there are none. -/
def highWater (fileSet : token.FileSet) (ds : List ast.Decl) : sectionKind :=
  (keptSections fileSet ds).foldl max sectionNone

/-- A spec that is a type definition whose type expression is written as an
interface type literal: the node InterfaceType itself, not a literal in
parentheses and not the name of a type. -/
def definesInterface (spec : ast.Spec) : Bool :=
  match spec with
  | .TypeSpec _ .InterfaceType => true
  | _ => false

/-- A type expression that the syntax alone shows to be an interface type: an
interface type literal, possibly in parentheses, since a parenthesised type is
the type inside the parentheses. -/
def denotesInterfaceType : ast.Expr → Bool
  | .InterfaceType => true
  | .ParenExpr x => denotesInterfaceType x
  | _ => false

/-- A spec that is a type definition of an interface type. -/
def definesInterfaceType (spec : ast.Spec) : Bool :=
  match spec with
  | .TypeSpec _ type => denotesInterfaceType type
  | _ => false

/-- The declaration `type J (interface{})` at position `pos`: one definition,
of the interface type written in parentheses. -/
def parenInterfaceDecl (pos : token.Pos) : ast.Decl :=
  .GenDecl pos .TYPE [.TypeSpec ⟨goString "J"⟩ (.ParenExpr .InterfaceType)]

/-- A spec that is a type definition (`*ast.TypeSpec`), as every spec of a
declaration with token TYPE is in a tree built by the parser. -/
def isTypeSpec (spec : ast.Spec) : Bool :=
  match spec with
  | .TypeSpec _ _ => true
  | _ => false

/-- The source position of a declaration (`Decl.Pos()`). -/
def declPos (decl : ast.Decl) : token.Pos :=
  match decl with
  | .GenDecl tokPos _ _ => tokPos
  | .FuncDecl fn => fn.Pos
  | .BadDecl from_ => from_

/-- The declaration at index `i` of `ds` is flagged: it is not skipped and its
section is strictly lower than the maximum section over the declarations
before it that are not skipped. -/
def flaggedAt (fileSet : token.FileSet) (ds : List ast.Decl) (i : Nat) : Bool :=
  match ds[i]? with
  | none => false
  | some d =>
    !skipped fileSet d && decide (sectionOf fileSet d < highWater fileSet (ds.take i))

/-- The violation reported for the declaration at index `i` of `ds`, against
the high-water mark of the declarations before it. -/
def violationAt (c : fileOrderingChecker) (fileSet : token.FileSet) (filename : GoString)
    (ds : List ast.Decl) (i : Nat) : Option Violation :=
  match ds[i]? with
  | none => none
  | some d =>
    some (c.violation filename (fileSet.Position (declPos d)) (sectionOf fileSet d)
      (highWater fileSet (ds.take i)))

/-- The violations the specification asks for: one for each flagged
declaration, in source order. -/
def orderingSpec (c : fileOrderingChecker) (fileSet : token.FileSet) (filename : GoString)
    (ds : List ast.Decl) : List Violation :=
  ((List.range ds.length).filter (flaggedAt fileSet ds)).filterMap
    (violationAt c fileSet filename ds)

end checks

/-! ## Go slices -/

/-- A slice value as the program can observe it: its elements, and whether it
is the nil slice.  The nil slice has no elements. -/
structure Slice (α : Type) where
  elems : List α
  isNil : Bool
deriving DecidableEq, Repr

namespace Slice

/-- The zero value of a slice type, as declared by `var s []T`: the nil slice. -/
def nil {α : Type} : Slice α := ⟨[], true⟩

/-- The value of `make([]T, 0)`: an allocated slice of length 0, not nil. -/
def make0 {α : Type} : Slice α := ⟨[], false⟩

/-- The value of `append(s, xs...)`: with no element to add the result is `s`
itself, so a nil slice stays nil; otherwise the result holds the elements of
both and is not nil. -/
def append {α : Type} (s : Slice α) (xs : List α) : Slice α :=
  if xs.isEmpty then s else ⟨s.elems ++ xs, false⟩

end Slice

/-! ## checks: the dispatcher (checks.go) -/

namespace checks

/-- The interface checker, with its three implementations. -/
inductive checker where
  | naming (c : prefixChecker)
  | params (c : paramCountChecker)
  | ordering (c : fileOrderingChecker)
deriving DecidableEq, Repr

/-- The method check of the interface: the elements of the slice the
implementation returns. -/
def checker.check (c : checker) (fileSet : token.FileSet) (file : ast.File)
    (filename : GoString) : List Violation :=
  match c with
  | .naming c => c.check fileSet file filename
  | .params c => c.check fileSet file filename
  | .ordering c => c.check fileSet file filename

/-- The ordered list of checks to run. -/
def allCheckers : List checker :=
  [.naming (newPrefixChecker (goString "Get") ruleNoGetPrefix),
   .params { maxParams := 4, rule := ruleParamCount },
   .ordering { rule := ruleFileOrdering }]

/-- The function Run: all structural checks on the given parsed file.  The
result starts as `var violations []Violation` and each checker's violations
are appended to it. -/
def Run (fileSet : token.FileSet) (file : ast.File) (filename : GoString) : Slice Violation :=
  allCheckers.foldl
    (fun violations c => violations.append (c.check fileSet file filename)) Slice.nil

end checks

/-! ## Library functions the command calls -/

namespace strings

/-- HasSuffix: `len(s) >= len(t) && s[len(s)-len(t):] == t`. -/
def HasSuffix (s t : GoString) : Bool :=
  decide (t.length ≤ s.length) && s.drop (s.length - t.length) == t

end strings

namespace filepath

/-- A file system tree as `os.Stat`, `os.ReadDir` and `filepath.WalkDir` show
it: a file, or a directory with the outcome of reading it, an error or none,
and the entries read, in the lexical order of `os.ReadDir`.  Symbolic links are
left out. -/
inductive FsNode where
  | file (name : GoString)
  | dir (name : GoString) (readErr : Option GoString) (entries : List FsNode)
deriving Repr

/-- The base name of a node (`Name()` of its FileInfo or DirEntry). -/
def FsNode.Name : FsNode → GoString
  | .file name => name
  | .dir name _ _ => name

/-- Whether a node is a directory (`IsDir()`). -/
def FsNode.IsDir : FsNode → Bool
  | .file _ => false
  | .dir _ _ _ => true

/-- What a WalkDirFunc returns: nil, the value SkipDir, or another error. -/
inductive WalkResult where
  | ok
  | SkipDir
  | err (msg : GoString)
deriving DecidableEq, Repr

mutual

/-- The function walkDir of the library: the callback is called on the node;
a directory the callback does not refuse is read, a read error is reported by
a second call of the callback, and the entries are walked in order. -/
def walkDir {σ : Type} (join : GoString → GoString → GoString)
    (fn : σ → GoString → FsNode → Option GoString → σ × WalkResult) (path : GoString) :
    FsNode → σ → σ × WalkResult
  | .file name, st => fn st path (.file name) none
  | .dir name readErr entries, st =>
    match fn st path (.dir name readErr entries) none with
    | (st1, .SkipDir) => (st1, .ok)
    | (st1, .err msg) => (st1, .err msg)
    | (st1, .ok) =>
      match readErr with
      | none => walkEntries join fn path entries st1
      | some e =>
        match fn st1 path (.dir name readErr entries) (some e) with
        | (st2, .SkipDir) => (st2, .ok)
        | (st2, .err msg) => (st2, .err msg)
        | (st2, .ok) => walkEntries join fn path entries st2

/-- The loop of walkDir over the entries of a directory: an entry that
returns SkipDir ends the loop without error, another error is returned. -/
def walkEntries {σ : Type} (join : GoString → GoString → GoString)
    (fn : σ → GoString → FsNode → Option GoString → σ × WalkResult) (path : GoString) :
    List FsNode → σ → σ × WalkResult
  | [], st => (st, .ok)
  | .file name :: rest, st =>
    match walkDir join fn (join path name) (.file name) st with
    | (st1, .SkipDir) => (st1, .ok)
    | (st1, .err msg) => (st1, .err msg)
    | (st1, .ok) => walkEntries join fn path rest st1
  | .dir name readErr entries :: rest, st =>
    match walkDir join fn (join path name) (.dir name readErr entries) st with
    | (st1, .SkipDir) => (st1, .ok)
    | (st1, .err msg) => (st1, .err msg)
    | (st1, .ok) => walkEntries join fn path rest st1

end

/-- The function WalkDir on a root that `os.Stat` has just found: the walk of
the tree at the root, where a final SkipDir counts as no error.  The result
is the state of the callback and the error returned, if any. -/
def WalkDir {σ : Type} (join : GoString → GoString → GoString) (root : GoString)
    (node : FsNode) (fn : σ → GoString → FsNode → Option GoString → σ × WalkResult)
    (init : σ) : σ × Option GoString :=
  match walkDir join fn root node init with
  | (st, .ok) => (st, none)
  | (st, .SkipDir) => (st, none)
  | (st, .err msg) => (st, some msg)

end filepath

/-! ## The command (main.go) -/

namespace main

/-- The semantic version of go-structural. -/
def version : GoString := goString "0.1.0"

/-- The error values run returns and main tests: the value errViolationsFound,
or a value made by `fmt.Errorf`.  No format of the command has the verb `%w`,
so a value made by Errorf wraps no other error. -/
inductive GoError where
  | violationsFound
  | errorf (msg : GoString)
deriving DecidableEq, Repr

/-- The error returned by run when structural violations are detected. -/
def errViolationsFound : GoError := .violationsFound

/-- The test `errors.Is(err, target)` on these values, none of which wraps
another: whether `err` is `target`. -/
def errorsIs (err target : GoError) : Bool := decide (err = target)

/-- Aggregate counts. -/
structure summary where
  FilesChecked : Int
  Errors : Int
  Warnings : Int
deriving DecidableEq, Repr

/-- The top-level JSON output structure. -/
structure output where
  Tool : GoString
  Version : GoString
  Pass : Bool
  Violations : Slice checks.Violation
  Summary : summary
deriving DecidableEq, Repr

/-- The collaborators of the command: `os.Stat` (an error message or the tree
at the path), `filepath.Join`, `parser.ParseFile` on the shared file set (an
error message or the parsed file), the file set through which the positions of
the parsed files resolve, and the error of `Encode` on the encoder that writes
to standard output, if any. -/
structure World where
  Stat : GoString → Except GoString filepath.FsNode
  Join : GoString → GoString → GoString
  ParseFile : GoString → Except GoString ast.File
  fileSet : token.FileSet
  Encode : output → Option GoString

/-- The callback collectGoFiles passes to WalkDir; its state is the slice
`files`. -/
def collectWalkFn (files : List GoString) (p : GoString) (d : filepath.FsNode)
    (err : Option GoString) : List GoString × filepath.WalkResult :=
  match err with
  | some e => (files, .err e)
  | none =>
    if d.IsDir then
      let name := d.Name
      if name = goString "vendor" ∨ name = goString "testdata" ∨ name = goString ".git" then
        (files, .SkipDir)
      else (files, .ok)
    else if strings.HasSuffix p (goString ".go") && !strings.HasSuffix p (goString "_test.go") then
      (files ++ [p], .ok)
    else (files, .ok)

/-- The function collectGoFiles: the Go files of a path, and the error
returned, if any. -/
def collectGoFiles (w : World) (path : GoString) : List GoString × Option GoString :=
  match w.Stat path with
  | .error err => ([], some err)
  | .ok info =>
    if !info.IsDir then
      if strings.HasSuffix path (goString "_test.go") then
        ([], some (goString "not a Go source file (test file): " ++ path))
      else if !strings.HasSuffix path (goString ".go") then
        ([], some (goString "not a Go source file: " ++ path))
      else ([path], none)
    else filepath.WalkDir w.Join path info collectWalkFn []

/-- The order of strings: bytewise lexicographic. -/
def stringLess : GoString → GoString → Bool
  | _, [] => false
  | [], _ :: _ => true
  | a :: as, b :: bs => decide (a < b) || (a == b && stringLess as bs)

/-- The function `slices.Sort` on strings. -/
def slicesSort (xs : List GoString) : List GoString :=
  xs.insertionSort (fun a b => stringLess b a = false)

/-- The rendering of a slice of strings by the verb `%v`. -/
def formatStrings (xs : List GoString) : GoString :=
  goString "[" ++ (goString " ").intercalate xs ++ goString "]"

/-- The first loop of run, over the arguments: the files collected, or the
error returned at the first argument whose collection fails. -/
def collectLoop (w : World) : List GoString → List GoString → Except GoError (List GoString)
  | [], allFiles => .ok allFiles
  | arg :: rest, allFiles =>
    match collectGoFiles w arg with
    | (_, some err) =>
      .error (.errorf (goString "collecting files from " ++ arg ++ goString ": " ++ err))
    | (files, none) => collectLoop w rest (allFiles ++ files)

/-- The second loop of run, over the files: the violations accumulated, or
the error returned at the first file that does not parse. -/
def parseLoop (w : World) :
    List GoString → Slice checks.Violation → Except GoError (Slice checks.Violation)
  | [], allViolations => .ok allViolations
  | filename :: rest, allViolations =>
    match w.ParseFile filename with
    | .error err => .error (.errorf (goString "parsing " ++ filename ++ goString ": " ++ err))
    | .ok file =>
      parseLoop w rest (allViolations.append (checks.Run w.fileSet file filename).elems)

/-- The third loop of run: the pair `(errorCount, warningCount)`. -/
def countLoop (allViolations : List checks.Violation) : Int × Int :=
  allViolations.foldl (fun counts v =>
    if v.Severity = checks.SeverityError then (counts.1 + 1, counts.2)
    else if v.Severity = checks.SeverityWarning then (counts.1, counts.2 + 1)
    else counts) (0, 0)

/-- The report run builds from the files and the violations. -/
def report (allFiles : List GoString) (allViolations : Slice checks.Violation) : output :=
  let counts := countLoop allViolations.elems
  { Tool := goString "go-structural"
    Version := version
    Pass := decide (counts.1 = 0)
    Violations := allViolations
    Summary := { FilesChecked := allFiles.length, Errors := counts.1, Warnings := counts.2 } }

/-- What a call of run leaves behind: the reports handed to the encoder on
standard output, in order, and the error returned. -/
structure RunResult where
  encoded : List output
  err : Option GoError
deriving DecidableEq, Repr

/-- The function run: parse the given paths, execute all checks, write the
results to standard output. -/
def run (w : World) (args : List GoString) : RunResult :=
  let args := if args.length = 0 then [goString "."] else args
  match collectLoop w args [] with
  | .error e => ⟨[], some e⟩
  | .ok allFiles =>
    let allFiles := slicesSort allFiles
    if allFiles.length = 0 then
      ⟨[], some (.errorf (goString "no Go files found in " ++ formatStrings args))⟩
    else
      match parseLoop w allFiles Slice.make0 with
      | .error e => ⟨[], some e⟩
      | .ok allViolations =>
        let out := report allFiles allViolations
        match w.Encode out with
        | some err => ⟨[out], some (.errorf (goString "encoding output: " ++ err))⟩
        | none =>
          if out.Summary.Errors > 0 then ⟨[out], some errViolationsFound⟩
          else ⟨[out], none⟩

/-- The function main, as the exit status of the process for the arguments
`os.Args[1:]`: 0 when run returns nil, 1 when it returns errViolationsFound, 2
otherwise. -/
def main (w : World) (args : List GoString) : Nat :=
  match (run w args).err with
  | none => 0
  | some err => if errorsIs err errViolationsFound then 1 else 2

end main

/-! ## The command: specification vocabulary -/

namespace main

/-- The arguments run works on: the current directory when none is given. -/
def effectiveArgs (args : List GoString) : List GoString :=
  if args.length = 0 then [goString "."] else args

/-- File discovery succeeds: collectGoFiles returns no error on any argument. -/
def discoveryOk (w : World) (args : List GoString) : Bool :=
  (effectiveArgs args).all (fun arg => (collectGoFiles w arg).2.isNone)

/-- The files of a run: the files collected from the arguments, sorted. -/
def discoveredFiles (w : World) (args : List GoString) : List GoString :=
  slicesSort ((effectiveArgs args).map (fun arg => (collectGoFiles w arg).1)).flatten

/-- Whether a file parses. -/
def parses (w : World) (filename : GoString) : Bool :=
  match w.ParseFile filename with
  | .ok _ => true
  | .error _ => false

/-- Parsing succeeds: every file of the list parses. -/
def parsingOk (w : World) (files : List GoString) : Bool :=
  files.all (parses w)

/-- The violations of one file: those Run returns on its parse tree, none for
a file that does not parse. -/
def fileViolations (w : World) (filename : GoString) : List checks.Violation :=
  match w.ParseFile filename with
  | .ok file => (checks.Run w.fileSet file filename).elems
  | .error _ => []

/-- The violations of all files of a list, file by file in order. -/
def violationsOf (w : World) (files : List GoString) : List checks.Violation :=
  (files.map (fileViolations w)).flatten

/-- The report of a run in which discovery and parsing succeed. -/
def reportOf (w : World) (args : List GoString) : output :=
  report (discoveredFiles w args) ⟨violationsOf w (discoveredFiles w args), false⟩

end main

/-! ## Fixtures: the test data of the repository -/

namespace checks

/-- A file set in which the handle `p` resolves to line `p`. -/
def lineFileSet : token.FileSet := ⟨fun p => ⟨p⟩⟩

/-- A function declaration without receiver and parameters, named `name`, at
position `pos`. -/
def plainFunc (pos : token.Pos) (name : String) : ast.Decl :=
  .FuncDecl ⟨none, ⟨goString name⟩, ⟨pos, some ⟨[]⟩⟩⟩

/-- A declaration of one struct type named `name` at position `pos`. -/
def structDecl (pos : token.Pos) (name : String) : ast.Decl :=
  .GenDecl pos .TYPE [.TypeSpec ⟨goString name⟩ .StructType]

/-- A declaration of one interface type named `name` at position `pos`. -/
def interfaceDecl (pos : token.Pos) (name : String) : ast.Decl :=
  .GenDecl pos .TYPE [.TypeSpec ⟨goString name⟩ .InterfaceType]

/-- The declarations of testdata/ordering_bad.go: an import, a function, then
a struct type. -/
def orderingBadFile : ast.File :=
  ⟨[.GenDecl 3 .IMPORT [.ImportSpec (goString "fmt")],
    plainFunc 6 "DoSomething",
    structDecl 11 "BadOrder"]⟩

/-- The declarations of testdata/ordering_init.go: an import, func init, a
const, a struct type and a function. -/
def orderingInitFile : ast.File :=
  ⟨[.GenDecl 3 .IMPORT [.ImportSpec (goString "fmt")],
    plainFunc 6 "init",
    .GenDecl 10 .CONST [.ValueSpec [⟨goString "initConst"⟩]],
    structDecl 12 "InitType",
    plainFunc 16 "InitFunc"]⟩

/-- The declarations of testdata/ordering_good.go: import, const, var, an
interface type, a struct type, a method and a function. -/
def orderingGoodFile : ast.File :=
  ⟨[.GenDecl 3 .IMPORT [.ImportSpec (goString "fmt")],
    .GenDecl 5 .CONST [.ValueSpec [⟨goString "defaultName"⟩]],
    .GenDecl 7 .VAR [.ValueSpec [⟨goString "greeting"⟩]],
    interfaceDecl 10 "Greeter",
    structDecl 15 "Person",
    .FuncDecl ⟨some ⟨[⟨[⟨goString "p"⟩], .Ident (goString "Person")⟩]⟩, ⟨goString "Greet"⟩,
      ⟨20, some ⟨[]⟩⟩⟩,
    plainFunc 25 "NewPerson"]⟩

/-- A file with one declaration of each section, in canonical order. -/
def canonicalFile : ast.File :=
  ⟨[.GenDecl 1 .IMPORT [.ImportSpec (goString "fmt")],
    .GenDecl 2 .CONST [.ValueSpec [⟨goString "c"⟩]],
    .GenDecl 3 .VAR [.ValueSpec [⟨goString "v"⟩]],
    interfaceDecl 4 "I",
    structDecl 5 "T",
    plainFunc 6 "F"]⟩

/-- The declarations of testdata/params_good.go: functions with zero, one
and four parameters, each parameter with its own type annotation. -/
def paramsGoodFile : ast.File :=
  ⟨[.FuncDecl (funcWithParams 4 "NoParams" []),
    .FuncDecl (funcWithParams 9 "OneParam" [paramField ["a"] "string"]),
    .FuncDecl (funcWithParams 14 "FourParams"
      [paramField ["a"] "string", paramField ["b"] "string", paramField ["c"] "string",
        paramField ["d"] "string"])]⟩

/-- Two functions over the maximum of four, as the test of the parameter
check expects of its fixture: TooManyParams with five parameters sharing one
type annotation and WayTooMany with seven in three fields. -/
def paramsBadFile : ast.File :=
  ⟨[.FuncDecl (funcWithParams 4 "TooManyParams" [paramField ["a", "b", "c", "d", "e"] "string"]),
    .FuncDecl (funcWithParams 9 "WayTooMany"
      [paramField ["a", "b", "c"] "string", paramField ["d", "e", "f"] "int",
        paramField ["g"] "bool"])]⟩

/-- A file with two regressions after a function: a struct type and a const. -/
def twoRegressionsFile : ast.File :=
  ⟨[plainFunc 1 "F",
    structDecl 2 "T",
    .GenDecl 3 .CONST [.ValueSpec [⟨goString "c"⟩]]]⟩

end checks

namespace checks

/-- A file in which the method M follows the declaration of its receiver type
T, on line 5, and a const declaration follows the method, on line 9. -/
def methodAfterTypeFile : ast.File :=
  ⟨[structDecl 3 "T",
    .FuncDecl (methodDecl 5 "t" "T" "M"),
    .GenDecl 9 .CONST [.ValueSpec [⟨goString "limit"⟩]]]⟩

/-- A file with a function, then a const, then a var: the var is not lower
than the declaration before it, and is below the functions section. -/
def riseAfterRegressionFile : ast.File :=
  ⟨[plainFunc 1 "F",
    .GenDecl 2 .CONST [.ValueSpec [⟨goString "c"⟩]],
    .GenDecl 3 .VAR [.ValueSpec [⟨goString "v"⟩]]]⟩

end checks

/-! ## Receivers: specification vocabulary and fixtures -/

namespace checks

/-- The declaration `decl` with the receiver of a function or method
declaration replaced by `recv fn`, where `fn` is the declaration; `none`
removes the receiver.  Other declarations are unchanged. -/
def withRecv (recv : ast.FuncDecl → Option ast.FieldList) (decl : ast.Decl) : ast.Decl :=
  match decl with
  | .FuncDecl fn => .FuncDecl { fn with Recv := recv fn }
  | .GenDecl tokPos tok specs => .GenDecl tokPos tok specs
  | .BadDecl from_ => .BadDecl from_

/-- A file in which only the method `func (s Server) init()` on line 3
precedes a const declaration on line 7. -/
def initMethodFile : ast.File :=
  ⟨[.FuncDecl (methodDecl 3 "s" "Server" "init"),
    .GenDecl 7 .CONST [.ValueSpec [⟨goString "limit"⟩]]]⟩

/-- The method `func (l *Logger) Logf(level int, format, sep string, args ...any)`
on line 5: a receiver and four parameters, the last one variadic. -/
def variadicMethod : ast.FuncDecl :=
  ⟨some ⟨[⟨[⟨goString "l"⟩], .StarExpr (.Ident (goString "Logger"))⟩]⟩,
    ⟨goString "Logf"⟩,
    ⟨5, some ⟨[paramField ["level"] "int", paramField ["format", "sep"] "string",
      ⟨[⟨goString "args"⟩], .Ellipsis (.Ident (goString "any"))⟩]⟩⟩⟩

end checks

/-! ## Fixtures: worlds for the command -/

namespace main

/-- A world with one directory `/tmp/t` holding the tree `node`, in which the
files of the list `parsed` parse to the given trees and every other file fails
to parse, and in which encoding succeeds. -/
def tempDirWorld (node : filepath.FsNode) (parsed : List (GoString × ast.File)) : World :=
  { Stat := fun path =>
      if path = goString "/tmp/t" then .ok node
      else .error (goString "stat " ++ path ++ goString ": no such file or directory")
    Join := fun dir name => dir ++ goString "/" ++ name
    ParseFile := fun filename =>
      match parsed.lookup filename with
      | some file => .ok file
      | none => .error (filename ++ goString ":1:1: expected package")
    fileSet := checks.lineFileSet
    Encode := fun _ => none }

/-- The world of TestRun_ViolationsFound: a directory with the file bad.go,
which declares `func GetName() string` on line 3. -/
def violationsWorld : World :=
  tempDirWorld (.dir (goString "t") none [.file (goString "bad.go")])
    [(goString "/tmp/t/bad.go", ⟨[checks.plainFunc 3 "GetName"]⟩)]

/-- The world of TestRun_CleanFiles: a directory with the file clean.go, which
declares `func Hello() string` on line 3. -/
def cleanWorld : World :=
  tempDirWorld (.dir (goString "t") none [.file (goString "clean.go")])
    [(goString "/tmp/t/clean.go", ⟨[checks.plainFunc 3 "Hello"]⟩)]

/-- The world of TestRun_NoFilesFound: an empty directory. -/
def emptyDirWorld : World :=
  tempDirWorld (.dir (goString "t") none []) []

/-- A world in which a.go parses, with a violation, and b.go does not parse. -/
def parseFailureWorld : World :=
  tempDirWorld (.dir (goString "t") none [.file (goString "a.go"), .file (goString "b.go")])
    [(goString "/tmp/t/a.go", ⟨[checks.plainFunc 3 "GetName"]⟩)]

/-- A world in which `/tmp/t` is a plain file, not a Go source file. -/
def textFileWorld : World :=
  tempDirWorld (.file (goString "t")) []

end main

/-! ## The ordering check: the loop and its invariant -/

namespace checks

theorem sectionOf_nonneg (fileSet : token.FileSet) (d : ast.Decl) :
    sectionNone ≤ sectionOf fileSet d := by
  unfold sectionOf classify
  cases d with
  | GenDecl p t specs =>
    cases t <;> simp [sectionNone, sectionImport, sectionConst, sectionVar]
    split <;> simp [sectionInterface, sectionType]
  | FuncDecl fn => simp [sectionNone, sectionFunc]
  | BadDecl p => simp [sectionNone]

theorem sectionOf_le_func (fileSet : token.FileSet) (d : ast.Decl) :
    sectionOf fileSet d ≤ sectionFunc := by
  unfold sectionOf classify
  cases d with
  | GenDecl p t specs =>
    cases t <;> simp [sectionNone, sectionImport, sectionConst, sectionVar, sectionFunc]
    split <;> simp [sectionInterface, sectionType]
  | FuncDecl fn => simp
  | BadDecl p => simp [sectionNone, sectionFunc]

theorem classify_snd_of_kept (fileSet : token.FileSet) (d : ast.Decl)
    (h : skipped fileSet d = false) :
    (classify fileSet d).2 = fileSet.Position (declPos d) := by
  cases d with
  | GenDecl p t specs =>
    cases t <;> simp [classify, declPos]
    split <;> rfl
  | FuncDecl fn => simp [classify, declPos]
  | BadDecl p => simp [skipped, sectionOf, classify] at h

theorem checkBody_skipped (c : fileOrderingChecker) (fileSet : token.FileSet)
    (filename : GoString) (st : List Violation × sectionKind) (d : ast.Decl)
    (h : skipped fileSet d = true) : c.checkBody fileSet filename st d = st := by
  obtain ⟨vs, hi⟩ := st
  simp only [skipped, sectionOf, Bool.or_eq_true, decide_eq_true_eq] at h
  unfold fileOrderingChecker.checkBody
  rcases h with h | h
  · simp [h]
  · simp [h]

theorem checkBody_kept (c : fileOrderingChecker) (fileSet : token.FileSet)
    (filename : GoString) (vs : List Violation) (hi : sectionKind) (d : ast.Decl)
    (h : skipped fileSet d = false) :
    c.checkBody fileSet filename (vs, hi) d =
      (if sectionOf fileSet d < hi then
          vs ++ [c.violation filename (fileSet.Position (declPos d)) (sectionOf fileSet d) hi]
        else vs,
       max hi (sectionOf fileSet d)) := by
  have hpos := classify_snd_of_kept fileSet d h
  simp only [skipped, sectionOf, Bool.or_eq_false_iff, decide_eq_false_iff_not] at h
  obtain ⟨h1, h2⟩ := h
  unfold fileOrderingChecker.checkBody
  simp only [sectionOf, h1, h2, if_false, hpos, Bool.false_eq_true]
  congr 1
  rcases le_total hi (classify fileSet d).1 with hle | hle
  · rw [max_eq_right hle]
    rcases eq_or_lt_of_le hle with heq | hlt
    · simp [heq]
    · simp [hlt]
  · rw [max_eq_left hle]
    simp [not_lt.mpr hle]

end checks

namespace checks

theorem keptSections_append (fileSet : token.FileSet) (xs ys : List ast.Decl) :
    keptSections fileSet (xs ++ ys) = keptSections fileSet xs ++ keptSections fileSet ys := by
  simp [keptSections]

theorem keptSections_cons_skipped (fileSet : token.FileSet) (d : ast.Decl)
    (ds : List ast.Decl) (h : skipped fileSet d = true) :
    keptSections fileSet (d :: ds) = keptSections fileSet ds := by
  simp [keptSections, h]

theorem keptSections_cons_kept (fileSet : token.FileSet) (d : ast.Decl)
    (ds : List ast.Decl) (h : skipped fileSet d = false) :
    keptSections fileSet (d :: ds) = sectionOf fileSet d :: keptSections fileSet ds := by
  simp [keptSections, h]

theorem highWater_snoc_skipped (fileSet : token.FileSet) (pre : List ast.Decl)
    (d : ast.Decl) (h : skipped fileSet d = true) :
    highWater fileSet (pre ++ [d]) = highWater fileSet pre := by
  rw [highWater, keptSections_append, keptSections_cons_skipped fileSet d [] h]
  simp [highWater, keptSections]

theorem highWater_snoc_kept (fileSet : token.FileSet) (pre : List ast.Decl)
    (d : ast.Decl) (h : skipped fileSet d = false) :
    highWater fileSet (pre ++ [d]) = max (highWater fileSet pre) (sectionOf fileSet d) := by
  rw [highWater, keptSections_append, keptSections_cons_kept fileSet d [] h]
  simp [highWater, keptSections]

/-- Splitting off index 0 from a filtered, mapped range. -/
theorem range_succ_filter_filterMap {β : Type} (n : Nat) (p : Nat → Bool)
    (g : Nat → Option β) :
    ((List.range (n + 1)).filter p).filterMap g =
      (if p 0 = true then (g 0).toList else []) ++
        ((List.range n).filter (fun j => p (j + 1))).filterMap (fun j => g (j + 1)) := by
  rw [List.range_succ_eq_map, List.filter_cons, List.filter_map]
  by_cases h0 : p 0 = true
  · simp only [h0, if_true, List.filterMap_cons, List.filterMap_map]
    cases hg : g 0 <;> simp [Function.comp_def]
  · simp only [h0, if_false, List.filterMap_map, Bool.false_eq_true]
    simp [Function.comp_def]

/-- The loop invariant of the ordering check: after the declarations `pre`
the second component of the state is their high-water mark, and running the
loop over `post` appends the violations of the flagged declarations of `post`
in order. -/
theorem ordering_loop (c : fileOrderingChecker) (fileSet : token.FileSet)
    (filename : GoString) (post pre : List ast.Decl) (vs : List Violation) :
    post.foldl (c.checkBody fileSet filename) (vs, highWater fileSet pre) =
      (vs ++ ((List.range post.length).filter
          (fun j => flaggedAt fileSet (pre ++ post) (pre.length + j))).filterMap
          (fun j => violationAt c fileSet filename (pre ++ post) (pre.length + j)),
        highWater fileSet (pre ++ post)) := by
  induction post generalizing pre vs with
  | nil => simp
  | cons d rest ih =>
    have hidx : (pre ++ d :: rest)[pre.length]? = some d := by
      rw [List.getElem?_append_right (le_refl _)]; simp
    have htake : (pre ++ d :: rest).take pre.length = pre := by simp
    have happ : pre ++ [d] ++ rest = pre ++ d :: rest := by simp
    have hlen : ∀ j, (pre ++ [d]).length + j = pre.length + (j + 1) := by
      intro j; simp; omega
    rw [List.foldl_cons, List.length_cons, range_succ_filter_filterMap]
    simp only [Nat.add_zero]
    by_cases hs : skipped fileSet d = true
    · rw [checkBody_skipped c fileSet filename _ d hs,
        ← highWater_snoc_skipped fileSet pre d hs, ih (pre ++ [d]) vs]
      simp only [happ, hlen]
      have hf : flaggedAt fileSet (pre ++ d :: rest) pre.length = false := by
        simp [flaggedAt, hidx, hs]
      simp [hf]
    · have hs2 : skipped fileSet d = false := by simpa using hs
      rw [checkBody_kept c fileSet filename _ _ d hs2,
        ← highWater_snoc_kept fileSet pre d hs2, ih (pre ++ [d])]
      simp only [happ, hlen]
      by_cases hlt : sectionOf fileSet d < highWater fileSet pre
      · have hf : flaggedAt fileSet (pre ++ d :: rest) pre.length = true := by
          simp [flaggedAt, hidx, hs2, htake, hlt]
        have hv : violationAt c fileSet filename (pre ++ d :: rest) pre.length =
            some (c.violation filename (fileSet.Position (declPos d)) (sectionOf fileSet d)
              (highWater fileSet pre)) := by
          simp [violationAt, hidx, htake]
        simp [hf, hv, hlt]
      · have hf : flaggedAt fileSet (pre ++ d :: rest) pre.length = false := by
          simp [flaggedAt, hidx, hs2, htake, hlt]
        simp [hf, hlt]

/-- The ordering check computes the violations of the specification. -/
theorem ordering_check_eq (c : fileOrderingChecker) (fileSet : token.FileSet)
    (filename : GoString) (ds : List ast.Decl) :
    c.check fileSet ⟨ds⟩ filename = orderingSpec c fileSet filename ds := by
  have h := ordering_loop c fileSet filename ds [] []
  have h0 : highWater fileSet [] = sectionNone := by simp [highWater, keptSections]
  rw [h0] at h
  simp only [fileOrderingChecker.check, h, orderingSpec]
  simp

end checks

namespace checks

theorem foldl_max_ge_init (l : List Int) (a : Int) : a ≤ l.foldl max a := by
  induction l generalizing a with
  | nil => simp
  | cons x xs ih => exact le_trans (le_max_left a x) (ih (max a x))

theorem foldl_max_ge_mem (l : List Int) (a : Int) : ∀ x ∈ l, x ≤ l.foldl max a := by
  induction l generalizing a with
  | nil => simp
  | cons y ys ih =>
    intro x hx
    rcases List.mem_cons.mp hx with h | h
    · subst h
      exact le_trans (le_max_right a x) (foldl_max_ge_init ys (max a x))
    · exact ih (max a y) x h

theorem foldl_max_attained (l : List Int) (a : Int) :
    l.foldl max a = a ∨ l.foldl max a ∈ l := by
  induction l generalizing a with
  | nil => simp
  | cons y ys ih =>
    rcases ih (max a y) with h | h
    · rcases max_choice a y with hm | hm
      · left; rw [List.foldl_cons, h, hm]
      · right; rw [List.foldl_cons, h, hm]; exact List.mem_cons_self _ _
    · right; exact List.mem_cons_of_mem _ h

/-- The high-water mark is the maximum of the kept sections: it bounds each of
them, and it is None or one of them. -/
theorem highWater_is_max (fileSet : token.FileSet) (ds : List ast.Decl) :
    (∀ s ∈ keptSections fileSet ds, s ≤ highWater fileSet ds) ∧
      (highWater fileSet ds = sectionNone ∨ highWater fileSet ds ∈ keptSections fileSet ds) :=
  ⟨foldl_max_ge_mem _ _, foldl_max_attained _ _⟩

theorem violationAt_isSome (c : fileOrderingChecker) (fileSet : token.FileSet)
    (filename : GoString) (ds : List ast.Decl) (i : Nat) (h : flaggedAt fileSet ds i = true) :
    (violationAt c fileSet filename ds i).isSome = true := by
  unfold flaggedAt at h
  unfold violationAt
  cases hd : ds[i]? with
  | none => simp [hd] at h
  | some d => simp

theorem filterMap_length_of_isSome {α β : Type} (g : α → Option β) (l : List α)
    (h : ∀ x ∈ l, (g x).isSome = true) : (l.filterMap g).length = l.length := by
  induction l with
  | nil => simp
  | cons x xs ih =>
    have hx := h x (List.mem_cons_self _ _)
    obtain ⟨y, hy⟩ := Option.isSome_iff_exists.mp hx
    rw [List.filterMap_cons_some hy]
    simp [ih (fun z hz => h z (List.mem_cons_of_mem _ hz))]

end checks

namespace checks

theorem foldl_filter_of_fixed {σ α : Type} (f : σ → α → σ) (q : α → Bool)
    (hq : ∀ st x, q x = false → f st x = st) (l : List α) (st : σ) :
    l.foldl f st = (l.filter q).foldl f st := by
  induction l generalizing st with
  | nil => rfl
  | cons x xs ih =>
    cases hx : q x with
    | false => rw [List.foldl_cons, hq st x hx, List.filter_cons_of_neg (by simp [hx]), ih]
    | true => rw [List.foldl_cons, List.filter_cons_of_pos hx, List.foldl_cons, ih]

theorem checkBody_init (c : fileOrderingChecker) (fileSet : token.FileSet)
    (filename : GoString) (st : List Violation × sectionKind) (d : ast.Decl)
    (h : isInitFuncDecl d = true) : c.checkBody fileSet filename st d = st :=
  checkBody_skipped c fileSet filename st d (by simp [skipped, h])

/-- The loop of the ordering check ends without a violation exactly when it
starts without one and the kept sections form a non-decreasing chain above the
initial high-water mark. -/
theorem ordering_loop_nil_iff (c : fileOrderingChecker) (fileSet : token.FileSet)
    (filename : GoString) (post : List ast.Decl) (vs : List Violation) (hi : sectionKind) :
    (post.foldl (c.checkBody fileSet filename) (vs, hi)).1 = [] ↔
      vs = [] ∧ List.Chain (fun a b => a ≤ b) hi (keptSections fileSet post) := by
  induction post generalizing vs hi with
  | nil => simp [keptSections]
  | cons d rest ih =>
    rw [List.foldl_cons]
    by_cases hs : skipped fileSet d = true
    · rw [checkBody_skipped c fileSet filename _ d hs, keptSections_cons_skipped _ _ _ hs]
      exact ih vs hi
    · have hs2 : skipped fileSet d = false := by simpa using hs
      rw [checkBody_kept c fileSet filename _ _ d hs2, keptSections_cons_kept _ _ _ hs2,
        List.chain_cons, ih]
      by_cases hlt : sectionOf fileSet d < hi
      · simp [hlt, not_le.mpr hlt]
      · have hle : hi ≤ sectionOf fileSet d := not_lt.mp hlt
        simp [hlt, hle, max_eq_right hle]

theorem keptSections_nonneg (fileSet : token.FileSet) (ds : List ast.Decl) :
    ∀ s ∈ keptSections fileSet ds, sectionNone ≤ s := by
  intro s hs
  obtain ⟨d, _, rfl⟩ := List.mem_map.mp hs
  exact sectionOf_nonneg fileSet d

theorem chain_none_iff (fileSet : token.FileSet) (ds : List ast.Decl) :
    List.Chain (fun a b => a ≤ b) sectionNone (keptSections fileSet ds) ↔
      List.Chain' (fun a b : sectionKind => a ≤ b) (keptSections fileSet ds) := by
  have hnn := keptSections_nonneg fileSet ds
  cases hk : keptSections fileSet ds with
  | nil => simp
  | cons a l =>
    rw [hk] at hnn
    simp [List.chain_cons, List.Chain', hnn a (List.mem_cons_self _ _)]

/-- The ordering check returns no violation exactly when the kept sections are
non-decreasing. -/
theorem ordering_check_nil_iff (c : fileOrderingChecker) (fileSet : token.FileSet)
    (filename : GoString) (ds : List ast.Decl) :
    c.check fileSet ⟨ds⟩ filename = [] ↔
      List.Chain' (fun a b : sectionKind => a ≤ b) (keptSections fileSet ds) := by
  rw [fileOrderingChecker.check, ordering_loop_nil_iff, chain_none_iff]
  simp

theorem keptSections_sublist (fileSet : token.FileSet) (ds : List ast.Decl) :
    List.Sublist (keptSections fileSet ds) (ds.map (sectionOf fileSet)) :=
  (List.filter_sublist ds).map _

end checks

/-! ## The ordering check: the claims -/

namespace checks

/-- C1. For every list of top-level declarations the ordering check returns
the violations of exactly the flagged declarations, one for each and in source
order, where a declaration is flagged when it is not skipped (its section is
not None and it is not a function named init) and its section is strictly
lower than the high-water mark of the declarations before it; the high-water
mark is the maximum section over the non-skipped declarations (None if there
are none), and an iteration that appends a violation leaves it unchanged. -/
theorem ordering_check_flags_below_high_water (c : fileOrderingChecker)
    (fileSet : token.FileSet) (filename : GoString) (ds : List ast.Decl) :
    c.check fileSet ⟨ds⟩ filename =
        ((List.range ds.length).filter (flaggedAt fileSet ds)).filterMap
          (violationAt c fileSet filename ds)
      ∧ (c.check fileSet ⟨ds⟩ filename).length =
          ((List.range ds.length).filter (flaggedAt fileSet ds)).length
      ∧ (∀ i, flaggedAt fileSet ds i = true ↔
          ∃ d, ds[i]? = some d ∧ sectionOf fileSet d ≠ sectionNone ∧ isInitFuncDecl d = false ∧
            sectionOf fileSet d < highWater fileSet (ds.take i))
      ∧ (∀ pre : List ast.Decl,
          (∀ s ∈ keptSections fileSet pre, s ≤ highWater fileSet pre) ∧
          (highWater fileSet pre = sectionNone ∨
            highWater fileSet pre ∈ keptSections fileSet pre))
      ∧ (∀ (vs : List Violation) (hi : sectionKind) (d : ast.Decl),
          (c.checkBody fileSet filename (vs, hi) d).1 ≠ vs →
            (c.checkBody fileSet filename (vs, hi) d).2 = hi) := by
  have heq := ordering_check_eq c fileSet filename ds
  refine ⟨heq, ?_, ?_, fun pre => highWater_is_max fileSet pre, ?_⟩
  · rw [heq, orderingSpec]
    apply filterMap_length_of_isSome
    intro i hi
    exact violationAt_isSome c fileSet filename ds i (List.mem_filter.mp hi).2
  · intro i
    unfold flaggedAt
    cases hd : ds[i]? with
    | none => simp
    | some d => simp [skipped, and_assoc]
  · intro vs hi d hne
    by_cases hs : skipped fileSet d = true
    · rw [checkBody_skipped c fileSet filename _ d hs] at hne
      exact absurd rfl hne
    · have hs2 : skipped fileSet d = false := by simpa using hs
      rw [checkBody_kept c fileSet filename _ _ d hs2] at hne ⊢
      by_cases hlt : sectionOf fileSet d < hi
      · exact max_eq_left (le_of_lt hlt)
      · simp [hlt] at hne

/-- Witness of C1: in a file with a function, then a struct type, then a
const, both later declarations are reported against the functions section. -/
theorem ordering_check_flags_below_high_water_witness :
    (fileOrderingChecker.mk ruleFileOrdering).check lineFileSet twoRegressionsFile
        (goString "two.go") =
      [⟨ruleFileOrdering, goString "two.go", 2,
          goString "types section appears after functions section", SeverityError, []⟩,
        ⟨ruleFileOrdering, goString "two.go", 3,
          goString "constants section appears after functions section", SeverityError, []⟩]
      ∧ ((List.range 3).filter (flaggedAt lineFileSet twoRegressionsFile.Decls)).filterMap
          (violationAt (fileOrderingChecker.mk ruleFileOrdering) lineFileSet
            (goString "two.go") twoRegressionsFile.Decls) =
        (fileOrderingChecker.mk ruleFileOrdering).check lineFileSet twoRegressionsFile
          (goString "two.go")
      ∧ ((fileOrderingChecker.mk ruleFileOrdering).checkBody lineFileSet (goString "two.go")
          ([], sectionFunc) (structDecl 2 "T")).2 = sectionFunc :=
  ⟨by decide,
    (ordering_check_flags_below_high_water (fileOrderingChecker.mk ruleFileOrdering)
      lineFileSet (goString "two.go") twoRegressionsFile.Decls).1.symm,
    (ordering_check_flags_below_high_water (fileOrderingChecker.mk ruleFileOrdering)
      lineFileSet (goString "two.go") twoRegressionsFile.Decls).2.2.2.2 [] sectionFunc
      (structDecl 2 "T") (by decide)⟩

/-- C2. The ordering check returns no violations if and only if the sections
of the non-skipped declarations are non-decreasing in the order
None < Import < Const < Var < Interface < Type < Func; in particular
declarations whose sections are Import, Const, Var, Interface, Type, Func in
this order yield no violation. -/
theorem ordering_check_empty_iff_nondecreasing (c : fileOrderingChecker)
    (fileSet : token.FileSet) (filename : GoString) (ds : List ast.Decl) :
    (c.check fileSet ⟨ds⟩ filename = [] ↔
        List.Chain' (fun a b : sectionKind => a ≤ b) (keptSections fileSet ds))
      ∧ (sectionNone < sectionImport ∧ sectionImport < sectionConst ∧ sectionConst < sectionVar ∧
          sectionVar < sectionInterface ∧ sectionInterface < sectionType ∧
          sectionType < sectionFunc)
      ∧ (ds.map (sectionOf fileSet) =
            [sectionImport, sectionConst, sectionVar, sectionInterface, sectionType, sectionFunc] →
          c.check fileSet ⟨ds⟩ filename = []) := by
  refine ⟨ordering_check_nil_iff c fileSet filename ds, by decide, ?_⟩
  intro hcanon
  rw [ordering_check_nil_iff]
  apply List.Pairwise.chain'
  apply List.Pairwise.sublist (keptSections_sublist fileSet ds)
  rw [hcanon]
  decide

/-- Witness of C2: the canonical file and testdata/ordering_good.go have no
ordering violation. -/
theorem ordering_check_empty_iff_nondecreasing_witness :
    canonicalFile.Decls.map (sectionOf lineFileSet) =
        [sectionImport, sectionConst, sectionVar, sectionInterface, sectionType, sectionFunc]
      ∧ (fileOrderingChecker.mk ruleFileOrdering).check lineFileSet canonicalFile
          (goString "canonical.go") = []
      ∧ (fileOrderingChecker.mk ruleFileOrdering).check lineFileSet orderingGoodFile
          (goString "testdata/ordering_good.go") = [] :=
  ⟨by decide,
    (ordering_check_empty_iff_nondecreasing (fileOrderingChecker.mk ruleFileOrdering)
      lineFileSet (goString "canonical.go") canonicalFile.Decls).2.2 (by decide),
    (ordering_check_empty_iff_nondecreasing (fileOrderingChecker.mk ruleFileOrdering)
      lineFileSet (goString "testdata/ordering_good.go") orderingGoodFile.Decls).1.mpr
      (List.Pairwise.chain' (by decide))⟩

/-- C8. Function declarations named init are transparent to the ordering
check: the check returns the same violations as on the declarations with all
init functions removed, and an iteration of its loop on an init function
changes neither the violations nor the high-water mark. -/
theorem ordering_check_init_transparent (c : fileOrderingChecker)
    (fileSet : token.FileSet) (filename : GoString) (ds : List ast.Decl) :
    c.check fileSet ⟨ds⟩ filename =
        c.check fileSet ⟨ds.filter (fun d => !isInitFuncDecl d)⟩ filename
      ∧ (∀ (st : List Violation × sectionKind) (d : ast.Decl),
          isInitFuncDecl d = true → c.checkBody fileSet filename st d = st) := by
  refine ⟨?_, fun st d h => checkBody_init c fileSet filename st d h⟩
  unfold fileOrderingChecker.check
  rw [foldl_filter_of_fixed (c.checkBody fileSet filename) (fun d => !isInitFuncDecl d)]
  intro st d hd
  exact checkBody_init c fileSet filename st d (by simpa using hd)

/-- Witness of C8: testdata/ordering_init.go, with func init between the import
and a const, has no ordering violation, as the file without it. -/
theorem ordering_check_init_transparent_witness :
    isInitFuncDecl (plainFunc 6 "init") = true
      ∧ (fileOrderingChecker.mk ruleFileOrdering).checkBody lineFileSet
          (goString "testdata/ordering_init.go") ([], sectionImport) (plainFunc 6 "init") =
        ([], sectionImport)
      ∧ (fileOrderingChecker.mk ruleFileOrdering).check lineFileSet orderingInitFile
          (goString "testdata/ordering_init.go") =
        (fileOrderingChecker.mk ruleFileOrdering).check lineFileSet
          ⟨orderingInitFile.Decls.filter (fun d => !isInitFuncDecl d)⟩
          (goString "testdata/ordering_init.go")
      ∧ (fileOrderingChecker.mk ruleFileOrdering).check lineFileSet orderingInitFile
          (goString "testdata/ordering_init.go") = [] :=
  ⟨by decide,
    (ordering_check_init_transparent (fileOrderingChecker.mk ruleFileOrdering) lineFileSet
      (goString "testdata/ordering_init.go") orderingInitFile.Decls).2 _ _ (by decide),
    (ordering_check_init_transparent (fileOrderingChecker.mk ruleFileOrdering) lineFileSet
      (goString "testdata/ordering_init.go") orderingInitFile.Decls).1,
    by decide⟩

theorem highWater_le_func (fileSet : token.FileSet) (ds : List ast.Decl) :
    highWater fileSet ds ≤ sectionFunc := by
  rcases (highWater_is_max fileSet ds).2 with h | h
  · rw [h]; decide
  · obtain ⟨d, _, hd⟩ := List.mem_map.mp h
    rw [← hd]
    exact sectionOf_le_func fileSet d

theorem highWater_eq_func (fileSet : token.FileSet) (pre mid : List ast.Decl)
    (fn : ast.FuncDecl) (hfn : fn.Name.Name ≠ goString "init") :
    highWater fileSet (pre ++ .FuncDecl fn :: mid) = sectionFunc := by
  apply le_antisymm (highWater_le_func fileSet _)
  apply (highWater_is_max fileSet _).1
  have hk : skipped fileSet (.FuncDecl fn) = false := by
    simp [skipped, sectionOf, classify, isInitFuncDecl, hfn, sectionFunc, sectionNone]
  rw [keptSections_append, keptSections_cons_kept _ _ _ hk]
  simp [sectionOf, classify]

theorem skipped_of_sectionType (fileSet : token.FileSet) (tp : ast.Decl)
    (h : sectionOf fileSet tp = sectionType) : skipped fileSet tp = false := by
  cases tp with
  | GenDecl p t specs => simp [skipped, h, isInitFuncDecl, sectionType, sectionNone]
  | FuncDecl fn => simp [sectionOf, classify, sectionFunc, sectionType] at h
  | BadDecl p => simp [sectionOf, classify, sectionNone, sectionType] at h

theorem types_after_functions_mem (c : fileOrderingChecker) (fileSet : token.FileSet)
    (filename : GoString) (pre mid post : List ast.Decl) (fn : ast.FuncDecl) (tp : ast.Decl)
    (hfn : fn.Name.Name ≠ goString "init") (htp : sectionOf fileSet tp = sectionType) :
    c.violation filename (fileSet.Position (declPos tp)) sectionType sectionFunc ∈
      c.check fileSet ⟨(pre ++ .FuncDecl fn :: mid) ++ tp :: post⟩ filename := by
  have hhw := highWater_eq_func fileSet pre mid fn hfn
  have hk := skipped_of_sectionType fileSet tp htp
  have h0 : highWater fileSet [] = sectionNone := by simp [highWater, keptSections]
  have h1 := ordering_loop c fileSet filename (pre ++ .FuncDecl fn :: mid) [] []
  rw [h0] at h1
  simp only [List.nil_append] at h1
  rw [hhw] at h1
  unfold fileOrderingChecker.check
  simp only []
  rw [List.foldl_append, h1, List.foldl_cons, checkBody_kept c fileSet filename _ _ tp hk, htp]
  have hlt : sectionType < sectionFunc := by decide
  have hmax : max sectionFunc sectionType = highWater fileSet ((pre ++ .FuncDecl fn :: mid) ++ [tp]) := by
    rw [highWater_snoc_kept _ _ _ hk, hhw, htp]
  rw [if_pos hlt, hmax, ordering_loop]
  simp

theorem isInterface_iff (specs : List ast.Spec) :
    isInterface specs = true ↔ ∀ sp ∈ specs, definesInterface sp = true := by
  induction specs with
  | nil => simp [isInterface]
  | cons sp rest ih =>
    cases sp with
    | ImportSpec path => simp [isInterface, definesInterface]
    | ValueSpec names => simp [isInterface, definesInterface]
    | TypeSpec name type =>
      cases type <;> simp [isInterface, definesInterface, ih]

/-- C9, refuted at `type J (interface{})`: the only definition of the
declaration is of an interface type, the parentheses around the literal
changing nothing to the type, yet the type of the spec is the node ParenExpr,
isInterface returns false and classify gives Type, not Interface. -/
theorem classify_paren_interface_is_type :
    (∀ sp ∈ [ast.Spec.TypeSpec ⟨goString "J"⟩ (.ParenExpr .InterfaceType)],
        definesInterfaceType sp = true)
      ∧ isInterface [.TypeSpec ⟨goString "J"⟩ (.ParenExpr .InterfaceType)] = false
      ∧ (classify lineFileSet (parenInterfaceDecl 3)).1 = sectionType
      ∧ (classify lineFileSet (parenInterfaceDecl 3)).1 ≠ sectionInterface := by
  decide

/-- C9, amended.  The function classify maps import, const and var
declarations to Import, Const and Var and function or method declarations to
Func; it maps a type declaration to Interface if and only if every spec of
the (possibly grouped) declaration is a type definition whose type expression
is written as an interface type literal, and otherwise to Type: a type
declaration holding at least one definition whose type expression is anything
else, a concrete type, a parenthesised interface literal or a name, also next
to interface literals, is classified Type as a whole. -/
theorem classify_sections (fileSet : token.FileSet) (p : token.Pos) (specs : List ast.Spec)
    (fn : ast.FuncDecl) :
    (classify fileSet (.GenDecl p .IMPORT specs)).1 = sectionImport
      ∧ (classify fileSet (.GenDecl p .CONST specs)).1 = sectionConst
      ∧ (classify fileSet (.GenDecl p .VAR specs)).1 = sectionVar
      ∧ (classify fileSet (.FuncDecl fn)).1 = sectionFunc
      ∧ ((classify fileSet (.GenDecl p .TYPE specs)).1 = sectionInterface ↔
          ∀ sp ∈ specs, definesInterface sp = true)
      ∧ ((∀ sp ∈ specs, isTypeSpec sp = true) →
          ((classify fileSet (.GenDecl p .TYPE specs)).1 = sectionInterface ↔
            ∀ name type, ast.Spec.TypeSpec name type ∈ specs → type = .InterfaceType))
      ∧ ((∃ name type, ast.Spec.TypeSpec name type ∈ specs ∧ type ≠ .InterfaceType) →
          (classify fileSet (.GenDecl p .TYPE specs)).1 = sectionType)
      ∧ ((classify fileSet (.GenDecl p .TYPE specs)).1 = sectionInterface ∨
          (classify fileSet (.GenDecl p .TYPE specs)).1 = sectionType)
      ∧ (∀ (name : ast.Ident) (x : ast.Expr), ast.Spec.TypeSpec name (.ParenExpr x) ∈ specs →
          (classify fileSet (.GenDecl p .TYPE specs)).1 = sectionType)
      ∧ (∀ (name : ast.Ident) (typeName : GoString),
          ast.Spec.TypeSpec name (.Ident typeName) ∈ specs →
          (classify fileSet (.GenDecl p .TYPE specs)).1 = sectionType) := by
  have hiff : (classify fileSet (.GenDecl p .TYPE specs)).1 = sectionInterface ↔
      ∀ sp ∈ specs, definesInterface sp = true := by
    rw [← isInterface_iff]
    cases h : isInterface specs <;> simp [classify, h, sectionInterface, sectionType]
  have hor : (classify fileSet (.GenDecl p .TYPE specs)).1 = sectionInterface ∨
      (classify fileSet (.GenDecl p .TYPE specs)).1 = sectionType := by
    cases h : isInterface specs <;> simp [classify, h]
  have hother : ∀ (name : ast.Ident) (type : ast.Expr),
      ast.Spec.TypeSpec name type ∈ specs → type ≠ .InterfaceType →
      (classify fileSet (.GenDecl p .TYPE specs)).1 = sectionType := by
    intro name type hmem hne
    rcases hor with h | h
    · have := hiff.mp h _ hmem
      cases type <;> simp [definesInterface] at this hne
    · exact h
  refine ⟨rfl, rfl, rfl, rfl, hiff, ?_, ?_, hor,
    fun name x hmem => hother name _ hmem (by simp),
    fun name typeName hmem => hother name _ hmem (by simp)⟩
  · intro hwf
    rw [hiff]
    constructor
    · intro h name type hmem
      have := h _ hmem
      cases type <;> simp [definesInterface] at this ⊢
    · intro h sp hsp
      cases sp with
      | ImportSpec path => simpa [isTypeSpec] using hwf _ hsp
      | ValueSpec names => simpa [isTypeSpec] using hwf _ hsp
      | TypeSpec name type =>
        rw [h name type hsp]
        rfl
  · rintro ⟨name, type, hmem, hne⟩
    rcases hor with h | h
    · have := hiff.mp h _ hmem
      cases type <;> simp [definesInterface] at this hne
    · exact h

/-- Witness of the amended C9: a group mixing an interface and a struct
definition is classified Type, a group of two interface literals Interface,
and the declarations `type J (interface{})` and `type R error` Type. -/
theorem classify_sections_witness :
    (classify lineFileSet (.GenDecl 1 .TYPE
        [.TypeSpec ⟨goString "Foo"⟩ .InterfaceType, .TypeSpec ⟨goString "Bar"⟩ .StructType])).1 =
        sectionType
      ∧ ((classify lineFileSet (.GenDecl 1 .TYPE
          [.TypeSpec ⟨goString "Foo"⟩ .InterfaceType,
            .TypeSpec ⟨goString "Baz"⟩ .InterfaceType])).1 = sectionInterface ↔
          ∀ name type, ast.Spec.TypeSpec name type ∈
              [ast.Spec.TypeSpec ⟨goString "Foo"⟩ .InterfaceType,
                ast.Spec.TypeSpec ⟨goString "Baz"⟩ .InterfaceType] →
            type = .InterfaceType)
      ∧ (classify lineFileSet (parenInterfaceDecl 3)).1 = sectionType
      ∧ (classify lineFileSet (.GenDecl 5 .TYPE
          [.TypeSpec ⟨goString "R"⟩ (.Ident (goString "error"))])).1 = sectionType :=
  ⟨(classify_sections lineFileSet 1
      [.TypeSpec ⟨goString "Foo"⟩ .InterfaceType, .TypeSpec ⟨goString "Bar"⟩ .StructType]
      ⟨none, ⟨goString "f"⟩, ⟨0, none⟩⟩).2.2.2.2.2.2.1
      ⟨⟨goString "Bar"⟩, .StructType, by decide, by decide⟩,
    (classify_sections lineFileSet 1
      [.TypeSpec ⟨goString "Foo"⟩ .InterfaceType, .TypeSpec ⟨goString "Baz"⟩ .InterfaceType]
      ⟨none, ⟨goString "f"⟩, ⟨0, none⟩⟩).2.2.2.2.2.1 (by decide),
    (classify_sections lineFileSet 3
      [.TypeSpec ⟨goString "J"⟩ (.ParenExpr .InterfaceType)]
      ⟨none, ⟨goString "f"⟩, ⟨0, none⟩⟩).2.2.2.2.2.2.2.2.1 ⟨goString "J"⟩ .InterfaceType
      (by decide),
    (classify_sections lineFileSet 5
      [.TypeSpec ⟨goString "R"⟩ (.Ident (goString "error"))]
      ⟨none, ⟨goString "f"⟩, ⟨0, none⟩⟩).2.2.2.2.2.2.2.2.2 ⟨goString "R"⟩ (goString "error")
      (by decide)⟩

/-- C10. Every violation of the ordering check belongs to a declaration D,
not skipped, whose section S is below the high-water mark H of the
declarations before it, and has the configured rule, the given file, the line
of D, the message made of the names of S and H around "section appears after",
severity Error and no suggestion; the names of Import..Func are imports,
constants, variables, interfaces, types, functions.  A declaration classified
Type that follows a function not named init is reported with the message
"types section appears after functions section" at its own line, and a file
made of such a function and such a type declaration yields exactly that one
violation. -/
theorem ordering_violation_content (c : fileOrderingChecker) (fileSet : token.FileSet)
    (filename : GoString) (ds : List ast.Decl) :
    (∀ v ∈ c.check fileSet ⟨ds⟩ filename, ∃ i d, ds[i]? = some d ∧ skipped fileSet d = false ∧
        sectionOf fileSet d < highWater fileSet (ds.take i) ∧
        v = { Rule := c.rule
              File := filename
              Line := (fileSet.Position (declPos d)).Line
              Message := sectionName (sectionOf fileSet d) ++ goString " section appears after "
                ++ sectionName (highWater fileSet (ds.take i)) ++ goString " section"
              Severity := SeverityError
              Suggestion := [] })
      ∧ (sectionName sectionImport = goString "imports" ∧
          sectionName sectionConst = goString "constants" ∧
          sectionName sectionVar = goString "variables" ∧
          sectionName sectionInterface = goString "interfaces" ∧
          sectionName sectionType = goString "types" ∧
          sectionName sectionFunc = goString "functions")
      ∧ (∀ (pre mid post : List ast.Decl) (fn : ast.FuncDecl) (tp : ast.Decl),
          ds = (pre ++ .FuncDecl fn :: mid) ++ tp :: post →
          fn.Name.Name ≠ goString "init" → sectionOf fileSet tp = sectionType →
          { Rule := c.rule
            File := filename
            Line := (fileSet.Position (declPos tp)).Line
            Message := goString "types section appears after functions section"
            Severity := SeverityError
            Suggestion := [] } ∈ c.check fileSet ⟨ds⟩ filename)
      ∧ (∀ (fn : ast.FuncDecl) (tp : ast.Decl),
          ds = [.FuncDecl fn, tp] →
          fn.Name.Name ≠ goString "init" → sectionOf fileSet tp = sectionType →
          c.check fileSet ⟨ds⟩ filename =
            [{ Rule := c.rule
               File := filename
               Line := (fileSet.Position (declPos tp)).Line
               Message := goString "types section appears after functions section"
               Severity := SeverityError
               Suggestion := [] }]) := by
  have hmsg : sectionName sectionType ++ goString " section appears after "
      ++ sectionName sectionFunc ++ goString " section" =
      goString "types section appears after functions section" := by decide
  refine ⟨?_, by decide, ?_, ?_⟩
  · intro v hv
    rw [ordering_check_eq, orderingSpec] at hv
    obtain ⟨i, hi, hvi⟩ := List.mem_filterMap.mp hv
    have hfl := (List.mem_filter.mp hi).2
    unfold flaggedAt at hfl
    unfold violationAt at hvi
    cases hd : ds[i]? with
    | none => simp [hd] at hfl
    | some d =>
      simp only [hd, Bool.and_eq_true, Bool.not_eq_true', decide_eq_true_eq] at hfl
      simp only [hd, Option.some.injEq] at hvi
      exact ⟨i, d, hd, hfl.1, hfl.2, hvi.symm⟩
  · intro pre mid post fn tp hds hfn htp
    have h := types_after_functions_mem c fileSet filename pre mid post fn tp hfn htp
    rw [hds]
    simpa only [fileOrderingChecker.violation, hmsg] using h
  · intro fn tp hds hfn htp
    have hk1 : skipped fileSet (.FuncDecl fn) = false := by
      simp [skipped, sectionOf, classify, isInitFuncDecl, hfn, sectionFunc, sectionNone]
    have hk2 := skipped_of_sectionType fileSet tp htp
    have hlt : sectionType < sectionFunc := by decide
    rw [hds]
    unfold fileOrderingChecker.check
    simp only [List.foldl_cons, List.foldl_nil]
    rw [checkBody_kept c fileSet filename _ _ _ hk1]
    have hsf : sectionOf fileSet (.FuncDecl fn) = sectionFunc := rfl
    have h1 : ¬ (sectionFunc < sectionNone) := by decide
    have h2 : max sectionNone sectionFunc = sectionFunc := by decide
    rw [hsf, if_neg h1, h2, checkBody_kept c fileSet filename _ _ _ hk2, htp, if_pos hlt]
    simp only [List.nil_append, fileOrderingChecker.violation, hmsg]

/-- Witness of C10: testdata/ordering_bad.go, where a struct type on line 11
follows a function, contains the violation, and the file made of that
function and that type yields exactly it. -/
theorem ordering_violation_content_witness :
    (⟨ruleFileOrdering, goString "testdata/ordering_bad.go", 11,
        goString "types section appears after functions section", SeverityError, []⟩ :
        Violation) ∈
        (fileOrderingChecker.mk ruleFileOrdering).check lineFileSet orderingBadFile
          (goString "testdata/ordering_bad.go")
      ∧ (fileOrderingChecker.mk ruleFileOrdering).check lineFileSet
          ⟨[plainFunc 6 "DoSomething", structDecl 11 "BadOrder"]⟩
          (goString "testdata/ordering_bad.go") =
        [⟨ruleFileOrdering, goString "testdata/ordering_bad.go", 11,
          goString "types section appears after functions section", SeverityError, []⟩] :=
  ⟨(ordering_violation_content (fileOrderingChecker.mk ruleFileOrdering) lineFileSet
      (goString "testdata/ordering_bad.go") orderingBadFile.Decls).2.2.1
      [.GenDecl 3 .IMPORT [.ImportSpec (goString "fmt")]] [] []
      ⟨none, ⟨goString "DoSomething"⟩, ⟨6, some ⟨[]⟩⟩⟩ (structDecl 11 "BadOrder")
      (by decide) (by decide) (by decide),
    (ordering_violation_content (fileOrderingChecker.mk ruleFileOrdering) lineFileSet
      (goString "testdata/ordering_bad.go")
      [plainFunc 6 "DoSomething", structDecl 11 "BadOrder"]).2.2.2
      ⟨none, ⟨goString "DoSomething"⟩, ⟨6, some ⟨[]⟩⟩⟩ (structDecl 11 "BadOrder")
      (by decide) (by decide) (by decide)⟩

end checks

namespace checks

/-! ## The naming check and the parameter check: the claims -/

theorem inspect_eq_foldl_funcDecls {σ : Type} (file : ast.File) (f : σ → ast.FuncDecl → σ)
    (init : σ) : ast.Inspect file f init = (funcDecls file).foldl f init := by
  obtain ⟨ds⟩ := file
  unfold ast.Inspect funcDecls
  simp only []
  induction ds generalizing init with
  | nil => rfl
  | cons d rest ih =>
    cases d with
    | GenDecl p t specs => simpa using ih init
    | FuncDecl fn => simpa using ih (f init fn)
    | BadDecl p => simpa using ih init

/-- A fold that appends `g x` for the elements with `q x` and leaves the state
alone otherwise collects the images of the filtered list. -/
theorem foldl_append_filter_map {α β : Type} (q : α → Bool) (g : α → β) (f : List β → α → List β)
    (hpos : ∀ vs x, q x = true → f vs x = vs ++ [g x])
    (hneg : ∀ vs x, q x = false → f vs x = vs) (l : List α) (vs : List β) :
    l.foldl f vs = vs ++ (l.filter q).map g := by
  induction l generalizing vs with
  | nil => simp
  | cons x xs ih =>
    cases hx : q x with
    | false => rw [List.foldl_cons, hneg vs x hx, ih, List.filter_cons_of_neg (by simp [hx])]
    | true =>
      rw [List.foldl_cons, hpos vs x hx, ih, List.filter_cons_of_pos hx]
      simp

theorem prefix_check_eq (c : prefixChecker) (fileSet : token.FileSet) (file : ast.File)
    (filename : GoString) :
    c.check fileSet file filename =
      ((funcDecls file).filter (fun fn => c.matches fn.Name.Name)).map
        (c.violation fileSet filename) := by
  unfold prefixChecker.check
  rw [inspect_eq_foldl_funcDecls,
    foldl_append_filter_map (fun fn => c.matches fn.Name.Name) (c.violation fileSet filename)]
  · simp
  · intro vs fn h
    simp [prefixChecker.visit, prefixChecker.violation, h]
  · intro vs fn h
    simp [prefixChecker.visit, h]

theorem matches_length (c : prefixChecker) (name : GoString) (h : c.matches name = true) :
    c.pfx.length < name.length := by
  unfold prefixChecker.matches at h
  by_contra hlt
  have hle : name.length ≤ c.pfx.length := Nat.le_of_not_lt hlt
  simp [hle] at h

/-- What matches decides, byte by byte: the name is the prefix, then a byte
that IsUpper accepts when read as a rune of its own, then any rest. -/
theorem matches_iff (c : prefixChecker) (name : GoString) :
    c.matches name = true ↔
      ∃ b rest, name = c.pfx ++ b :: rest ∧ unicode.IsUpper b = true := by
  constructor
  · intro h
    have hlen := matches_length c name h
    unfold prefixChecker.matches at h
    have hnle : ¬ name.length ≤ c.pfx.length := Nat.not_le.mpr hlen
    by_cases hp : strings.HasPrefix name c.pfx = true
    · simp only [hp, Bool.not_true, Bool.false_eq_true, if_false, dif_neg hnle] at h
      have htake : name.take c.pfx.length = c.pfx := by
        simpa [strings.HasPrefix, Nat.le_of_lt hlen] using hp
      refine ⟨name.get ⟨c.pfx.length, hlen⟩, name.drop (c.pfx.length + 1), ?_, h⟩
      have hsplit := List.take_append_drop c.pfx.length name
      rw [htake, List.drop_eq_getElem_cons hlen] at hsplit
      exact hsplit.symm
    · simp [hp] at h
  · rintro ⟨b, rest, rfl, hb⟩
    unfold prefixChecker.matches
    have hp : strings.HasPrefix (c.pfx ++ b :: rest) c.pfx = true := by
      simp [strings.HasPrefix]
    have hnle : ¬ (c.pfx ++ b :: rest).length ≤ c.pfx.length := by simp
    simp only [hp, Bool.not_true, Bool.false_eq_true, if_false, dif_neg hnle]
    have hget : (c.pfx ++ b :: rest)[c.pfx.length]? = some b := by
      rw [List.getElem?_append_right (le_refl _)]; simp
    have hlt : c.pfx.length < (c.pfx ++ b :: rest).length := Nat.lt_of_not_le hnle
    rw [List.getElem?_eq_getElem hlt, Option.some.injEq] at hget
    rw [List.get_eq_getElem, hget]
    exact hb

/-- C3, evaluated where the code departs from it.  The method `GetẢnh` has the
prefix Get followed by U+1EA2, an upper case letter whose UTF-8 encoding is the
three bytes E1 BA A2.  The method matches reads the single byte E1 after the
prefix and asks IsUpper about the rune U+00E1, a lower case letter, so it
returns false and check reports nothing for the declaration, where the claim
asks for the violation "GetẢnh() should be Ảnh()". -/
theorem prefix_check_misses_upper_case_of_three_bytes :
    strings.HasPrefix (goString "GetẢnh") (goString "Get") = true
      ∧ utf8DecodeRune ((goString "GetẢnh").drop (goString "Get").length) = some 0x1EA2
      ∧ (goString "GetẢnh")[(goString "Get").length]? = some 0xE1
      ∧ unicode.IsUpper 0xE1 = false
      ∧ (newPrefixChecker (goString "Get") ruleNoGetPrefix).matches (goString "GetẢnh") = false
      ∧ (newPrefixChecker (goString "Get") ruleNoGetPrefix).check lineFileSet
          ⟨[.FuncDecl (methodDecl 5 "p" "Post" "GetẢnh")]⟩ (goString "post.go") = [] := by
  decide

/-- C4, evaluated where the code departs from it.  The function `Getümmel`
has the prefix Get followed by U+00FC, a lower case letter whose UTF-8
encoding is the two bytes C3 BC.  The method matches reads the single byte C3
after the prefix and asks IsUpper about the rune U+00C3, an upper case letter,
so it returns true and check reports "Getümmel() should be ümmel()", where the
claim asks for no violation. -/
theorem prefix_check_flags_lower_case_of_two_bytes :
    strings.HasPrefix (goString "Getümmel") (goString "Get") = true
      ∧ utf8DecodeRune ((goString "Getümmel").drop (goString "Get").length) = some 0xFC
      ∧ unicode.IsLower 0xFC = true
      ∧ unicode.IsUpper 0xFC = false
      ∧ (goString "Getümmel")[(goString "Get").length]? = some 0xC3
      ∧ unicode.IsUpper 0xC3 = true
      ∧ (newPrefixChecker (goString "Get") ruleNoGetPrefix).matches (goString "Getümmel") = true
      ∧ (newPrefixChecker (goString "Get") ruleNoGetPrefix).check lineFileSet
          ⟨[plainFunc 3 "Getümmel"]⟩ (goString "crowd.go") =
        [⟨ruleNoGetPrefix, goString "crowd.go", 3, goString "Getümmel() should be ümmel()",
          SeverityError, goString "Rename to ümmel()"⟩] := by
  decide

/-- C5. A function or method whose name is exactly the configured prefix is
never flagged: matches returns false on the prefix itself, the callback of
check leaves the violations unchanged at such a declaration, and every
violation of check has a non-empty rename target, so that no message is
"<P>() should be ()" and no suggestion is "Rename to ()". -/
theorem prefix_check_bare_prefix_never_flagged (c : prefixChecker) (fileSet : token.FileSet)
    (file : ast.File) (filename : GoString) :
    c.matches c.pfx = false
      ∧ (∀ (vs : List Violation) (fn : ast.FuncDecl),
          fn.Name.Name = c.pfx → c.visit fileSet filename vs fn = vs)
      ∧ (∀ v ∈ c.check fileSet file filename, ∃ fn ∈ funcDecls file,
          fn.Name.Name.drop c.pfx.length ≠ [] ∧
          v.Message = fn.Name.Name ++ goString "() should be "
            ++ fn.Name.Name.drop c.pfx.length ++ goString "()")
      ∧ (∀ v ∈ c.check fileSet file filename,
          v.Message ≠ c.pfx ++ goString "() should be ()" ∧
          v.Suggestion ≠ goString "Rename to ()") := by
  have hself : c.matches c.pfx = false := by
    simp [prefixChecker.matches]
  have hfrom : ∀ v ∈ c.check fileSet file filename, ∃ fn ∈ funcDecls file,
      c.pfx.length < fn.Name.Name.length ∧ v = c.violation fileSet filename fn := by
    intro v hv
    rw [prefix_check_eq] at hv
    obtain ⟨fn, hfn, rfl⟩ := List.mem_map.mp hv
    obtain ⟨hmem, hm⟩ := List.mem_filter.mp hfn
    exact ⟨fn, hmem, matches_length c _ hm, rfl⟩
  have hA : (goString "() should be ").length = 13 := by decide
  have hB : (goString "()").length = 2 := by decide
  have hC : (goString "() should be ()").length = 15 := by decide
  have hD : (goString "Rename to ").length = 10 := by decide
  have hE : (goString "Rename to ()").length = 12 := by decide
  refine ⟨hself, ?_, ?_, ?_⟩
  · intro vs fn hfn
    simp [prefixChecker.visit, hfn, hself]
  · intro v hv
    obtain ⟨fn, hmem, hlen, rfl⟩ := hfrom v hv
    refine ⟨fn, hmem, ?_, rfl⟩
    intro hnil
    have := congrArg List.length hnil
    simp at this
    omega
  · intro v hv
    obtain ⟨fn, _, hlen, rfl⟩ := hfrom v hv
    constructor
    · intro heq
      have := congrArg List.length heq
      simp [prefixChecker.violation, hA, hB, hC] at this
      omega
    · intro heq
      have := congrArg List.length heq
      simp [prefixChecker.violation, hB, hD, hE] at this
      omega

/-- Witness of C5: with the prefix Get, a function named Get is not flagged. -/
theorem prefix_check_bare_prefix_never_flagged_witness :
    (newPrefixChecker (goString "Get") ruleNoGetPrefix).visit lineFileSet (goString "get.go") []
        ⟨none, ⟨goString "Get"⟩, ⟨3, some ⟨[]⟩⟩⟩ = []
      ∧ (newPrefixChecker (goString "Get") ruleNoGetPrefix).check lineFileSet
          ⟨[plainFunc 3 "Get"]⟩ (goString "get.go") = [] :=
  ⟨(prefix_check_bare_prefix_never_flagged (newPrefixChecker (goString "Get") ruleNoGetPrefix)
      lineFileSet ⟨[plainFunc 3 "Get"]⟩ (goString "get.go")).2.1 []
      ⟨none, ⟨goString "Get"⟩, ⟨3, some ⟨[]⟩⟩⟩ (by decide),
    by decide⟩

theorem countParams_loop (fields : List ast.Field) (count : Int) :
    fields.foldl (fun count field =>
        if field.Names.length = 0 then count + 1 else count + (field.Names.length : Int)) count =
      count + (fields.map fieldParams).sum := by
  induction fields generalizing count with
  | nil => simp
  | cons f rest ih =>
    rw [List.foldl_cons, ih, List.map_cons, List.sum_cons]
    by_cases h : f.Names = []
    · simp [fieldParams, h, add_assoc]
    · have hlen : f.Names.length ≠ 0 := by simpa using h
      simp [fieldParams, h, hlen, add_assoc]

/-- C6. For every parameter list, countParams returns the sum over its fields
of the number of names of the field, a field without names counting 1: a nil
and an empty parameter list count 0, a single field with several names counts
each name once, and an unnamed parameter counts 1. -/
theorem countParams_eq_sum (params : Option ast.FieldList) :
    countParams params =
        (match params with
          | none => 0
          | some fl => (fl.List.map fieldParams).sum)
      ∧ countParams none = 0
      ∧ countParams (some ⟨[]⟩) = 0
      ∧ (∀ (names : List ast.Ident) (typ : ast.Expr), names ≠ [] →
          countParams (some ⟨[⟨names, typ⟩]⟩) = names.length)
      ∧ (∀ typ : ast.Expr, countParams (some ⟨[⟨[], typ⟩]⟩) = 1)
      ∧ (∀ field : ast.Field,
          fieldParams field = if field.Names.length = 0 then 1 else (field.Names.length : Int)) := by
  refine ⟨?_, rfl, rfl, ?_, ?_, ?_⟩
  · cases params with
    | none => rfl
    | some fl =>
      simp only [countParams]
      rw [countParams_loop]
      simp
  · intro names typ hne
    simp [countParams, hne]
  · intro typ
    simp [countParams]
  · intro field
    by_cases h : field.Names = []
    · simp [fieldParams, h]
    · have hlen : field.Names.length ≠ 0 := by simpa using h
      simp [fieldParams, h, hlen]

/-- Witness of C6: three names sharing one type annotation count three, and
the parameter list (a, b, c string, d, e, f int, g bool) counts seven. -/
theorem countParams_eq_sum_witness :
    countParams (some ⟨[⟨[⟨goString "a"⟩, ⟨goString "b"⟩, ⟨goString "c"⟩],
        .Ident (goString "string")⟩]⟩) = 3
      ∧ countParams (some ⟨[paramField ["a", "b", "c"] "string",
          paramField ["d", "e", "f"] "int", paramField ["g"] "bool"]⟩) = 7 :=
  ⟨(countParams_eq_sum none).2.2.2.1
      [⟨goString "a"⟩, ⟨goString "b"⟩, ⟨goString "c"⟩] (.Ident (goString "string"))
      (by decide),
    by decide⟩

/-- C7. The parameter check returns, in declaration order, one violation for
each function or method whose parameter count c exceeds the maximum N, with
the configured rule, the given file, the line of the declaration, the message
"<Name>() has <c> parameters (max <N>)", severity Error and the suggestion
"Use options pattern or config struct"; at a declaration with c at most N (so
with exactly N parameters) the callback adds nothing, at one with c above N
(so with N+1) it appends exactly that violation. -/
theorem param_check_flags_above_max (c : paramCountChecker) (fileSet : token.FileSet)
    (file : ast.File) (filename : GoString) :
    c.check fileSet file filename =
        ((funcDecls file).filter
          (fun fn => decide (c.maxParams < countParams fn.Typ.Params))).map
          (fun fn =>
            { Rule := c.rule
              File := filename
              Line := (fileSet.Position fn.Pos).Line
              Message := fn.Name.Name ++ goString "() has "
                ++ formatInt (countParams fn.Typ.Params)
                ++ goString " parameters (max " ++ formatInt c.maxParams ++ goString ")"
              Severity := SeverityError
              Suggestion := goString "Use options pattern or config struct" })
      ∧ (∀ (vs : List Violation) (fn : ast.FuncDecl),
          countParams fn.Typ.Params ≤ c.maxParams → c.visit fileSet filename vs fn = vs)
      ∧ (∀ (vs : List Violation) (fn : ast.FuncDecl),
          c.maxParams < countParams fn.Typ.Params →
          c.visit fileSet filename vs fn = vs ++
            [{ Rule := c.rule
               File := filename
               Line := (fileSet.Position fn.Pos).Line
               Message := fn.Name.Name ++ goString "() has "
                 ++ formatInt (countParams fn.Typ.Params)
                 ++ goString " parameters (max " ++ formatInt c.maxParams ++ goString ")"
               Severity := SeverityError
               Suggestion := goString "Use options pattern or config struct" }]) := by
  have hneg : ∀ (vs : List Violation) (fn : ast.FuncDecl),
      countParams fn.Typ.Params ≤ c.maxParams → c.visit fileSet filename vs fn = vs := by
    intro vs fn h
    simp [paramCountChecker.visit, h]
  have hpos : ∀ (vs : List Violation) (fn : ast.FuncDecl),
      c.maxParams < countParams fn.Typ.Params →
      c.visit fileSet filename vs fn = vs ++
        [{ Rule := c.rule
           File := filename
           Line := (fileSet.Position fn.Pos).Line
           Message := fn.Name.Name ++ goString "() has "
             ++ formatInt (countParams fn.Typ.Params)
             ++ goString " parameters (max " ++ formatInt c.maxParams ++ goString ")"
           Severity := SeverityError
           Suggestion := goString "Use options pattern or config struct" }] := by
    intro vs fn h
    simp [paramCountChecker.visit, not_le.mpr h]
  refine ⟨?_, hneg, hpos⟩
  have key := foldl_append_filter_map
    (fun fn : ast.FuncDecl => decide (c.maxParams < countParams fn.Typ.Params))
    (fun fn : ast.FuncDecl =>
      ({ Rule := c.rule
         File := filename
         Line := (fileSet.Position fn.Pos).Line
         Message := fn.Name.Name ++ goString "() has "
           ++ formatInt (countParams fn.Typ.Params)
           ++ goString " parameters (max " ++ formatInt c.maxParams ++ goString ")"
         Severity := SeverityError
         Suggestion := goString "Use options pattern or config struct" } : Violation))
    (c.visit fileSet filename)
    (fun vs fn h => hpos vs fn (by simpa using h))
    (fun vs fn h => hneg vs fn (by simpa using h))
    (funcDecls file) []
  unfold paramCountChecker.check
  rw [inspect_eq_foldl_funcDecls, key]
  simp

/-- Witness of C7: with the maximum 4, FourParams adds no violation, a
function with five parameters adds one, and the two functions with five and
seven parameters yield the two messages of the test, in declaration order. -/
theorem param_check_flags_above_max_witness :
    (paramCountChecker.mk 4 ruleParamCount).visit lineFileSet
        (goString "testdata/params_good.go") []
        (funcWithParams 14 "FourParams"
          [paramField ["a"] "string", paramField ["b"] "string", paramField ["c"] "string",
            paramField ["d"] "string"]) = []
      ∧ (paramCountChecker.mk 4 ruleParamCount).visit lineFileSet
          (goString "testdata/params_bad.go") []
          (funcWithParams 4 "TooManyParams" [paramField ["a", "b", "c", "d", "e"] "string"]) =
        [⟨ruleParamCount, goString "testdata/params_bad.go", 4,
          goString "TooManyParams() has 5 parameters (max 4)", SeverityError,
          goString "Use options pattern or config struct"⟩]
      ∧ (paramCountChecker.mk 4 ruleParamCount).check lineFileSet paramsBadFile
          (goString "testdata/params_bad.go") =
        [⟨ruleParamCount, goString "testdata/params_bad.go", 4,
            goString "TooManyParams() has 5 parameters (max 4)", SeverityError,
            goString "Use options pattern or config struct"⟩,
          ⟨ruleParamCount, goString "testdata/params_bad.go", 9,
            goString "WayTooMany() has 7 parameters (max 4)", SeverityError,
            goString "Use options pattern or config struct"⟩]
      ∧ (paramCountChecker.mk 4 ruleParamCount).check lineFileSet paramsGoodFile
          (goString "testdata/params_good.go") = [] :=
  ⟨(param_check_flags_above_max (paramCountChecker.mk 4 ruleParamCount) lineFileSet
      paramsGoodFile (goString "testdata/params_good.go")).2.1 [] _ (by decide),
    ((param_check_flags_above_max (paramCountChecker.mk 4 ruleParamCount) lineFileSet
      paramsBadFile (goString "testdata/params_bad.go")).2.2 [] _ (by decide)).trans
      (by decide),
    by decide, by decide⟩

end checks

/-! ## The dispatcher: the claims -/

namespace checks

theorem slice_append_elems {α : Type} (s : Slice α) (xs : List α) :
    (s.append xs).elems = s.elems ++ xs := by
  unfold Slice.append
  cases xs with
  | nil => simp
  | cons x rest => simp

theorem slice_append_isNil {α : Type} (s : Slice α) (xs : List α) :
    (s.append xs).isNil = (s.isNil && xs.isEmpty) := by
  unfold Slice.append
  cases xs with
  | nil => simp
  | cons x rest => simp

theorem run_elems (fileSet : token.FileSet) (file : ast.File) (filename : GoString) :
    (Run fileSet file filename).elems =
      (newPrefixChecker (goString "Get") ruleNoGetPrefix).check fileSet file filename
        ++ (paramCountChecker.mk 4 ruleParamCount).check fileSet file filename
        ++ (fileOrderingChecker.mk ruleFileOrdering).check fileSet file filename := by
  simp [Run, allCheckers, slice_append_elems, checker.check, Slice.nil]

theorem isEmpty_append_eq {α : Type} (xs ys : List α) :
    (xs ++ ys).isEmpty = (xs.isEmpty && ys.isEmpty) := by
  cases xs <;> cases ys <;> rfl

theorem run_isNil (fileSet : token.FileSet) (file : ast.File) (filename : GoString) :
    (Run fileSet file filename).isNil = (Run fileSet file filename).elems.isEmpty := by
  rw [run_elems]
  simp [Run, allCheckers, slice_append_isNil, checker.check, Slice.nil, Bool.and_assoc,
    isEmpty_append_eq]

/-- C11. For every parsed file and filename, the violations Run returns are
the violations of the naming check with prefix Get and rule no-get-prefix,
then those of the parameter check with maximum 4 and rule param-count, then
those of the ordering check with rule file-ordering, each list as its checker
returns it on the same input. -/
theorem run_concatenates_checkers (fileSet : token.FileSet) (file : ast.File)
    (filename : GoString) :
    (Run fileSet file filename).elems =
      (newPrefixChecker (goString "Get") (goString "no-get-prefix")).check fileSet file filename
        ++ (paramCountChecker.mk 4 (goString "param-count")).check fileSet file filename
        ++ (fileOrderingChecker.mk (goString "file-ordering")).check fileSet file filename :=
  run_elems fileSet file filename

end checks

/-! ## The command: the loops of run -/

namespace main

theorem slice_append_append {α : Type} (s : Slice α) (xs ys : List α) :
    (s.append xs).append ys = s.append (xs ++ ys) := by
  cases xs with
  | nil => simp [Slice.append]
  | cons x rest =>
    cases ys with
    | nil => simp [Slice.append]
    | cons y rest2 => simp [Slice.append]

theorem make0_append {α : Type} (xs : List α) :
    (Slice.make0 : Slice α).append xs = ⟨xs, false⟩ := by
  cases xs with
  | nil => rfl
  | cons x rest => simp [Slice.append, Slice.make0]

theorem collectLoop_ok (w : World) (args acc : List GoString)
    (h : args.all (fun arg => (collectGoFiles w arg).2.isNone) = true) :
    collectLoop w args acc =
      .ok (acc ++ (args.map (fun arg => (collectGoFiles w arg).1)).flatten) := by
  induction args generalizing acc with
  | nil => simp [collectLoop]
  | cons arg rest ih =>
    simp only [List.all_cons, Bool.and_eq_true] at h
    obtain ⟨h1, h2⟩ := h
    unfold collectLoop
    cases hc : collectGoFiles w arg with
    | mk files err =>
      rw [hc] at h1
      cases err with
      | some e => simp at h1
      | none =>
        simp only []
        rw [ih (acc ++ files) h2]
        simp [hc]

theorem collectLoop_err (w : World) (args acc : List GoString)
    (h : args.all (fun arg => (collectGoFiles w arg).2.isNone) = false) :
    ∃ msg, collectLoop w args acc = .error (.errorf msg) := by
  induction args generalizing acc with
  | nil => simp at h
  | cons arg rest ih =>
    unfold collectLoop
    cases hc : collectGoFiles w arg with
    | mk files err =>
      cases err with
      | some e => exact ⟨_, rfl⟩
      | none =>
        simp only [List.all_cons, hc, Option.isNone_none, Bool.true_and] at h
        exact ih (acc ++ files) h

theorem parseLoop_ok (w : World) (files : List GoString) (acc : Slice checks.Violation)
    (h : parsingOk w files = true) :
    parseLoop w files acc = .ok (acc.append (violationsOf w files)) := by
  induction files generalizing acc with
  | nil => simp [parseLoop, violationsOf, Slice.append]
  | cons f rest ih =>
    simp only [parsingOk, List.all_cons, Bool.and_eq_true] at h
    obtain ⟨h1, h2⟩ := h
    unfold parseLoop
    unfold parses at h1
    cases hp : w.ParseFile f with
    | error e => simp [hp] at h1
    | ok file =>
      simp only []
      rw [ih _ h2, slice_append_append]
      simp [violationsOf, fileViolations, hp]

theorem parseLoop_err (w : World) (files : List GoString) (acc : Slice checks.Violation)
    (h : parsingOk w files = false) :
    ∃ msg, parseLoop w files acc = .error (.errorf msg) := by
  induction files generalizing acc with
  | nil => simp [parsingOk] at h
  | cons f rest ih =>
    unfold parseLoop
    cases hp : w.ParseFile f with
    | error e => exact ⟨_, rfl⟩
    | ok file =>
      simp only [parsingOk, List.all_cons, parses, hp, Bool.true_and] at h
      exact ih _ h

theorem countLoop_fold (vs : List checks.Violation) (e n : Int) :
    vs.foldl (fun counts v =>
        if v.Severity = checks.SeverityError then (counts.1 + 1, counts.2)
        else if v.Severity = checks.SeverityWarning then (counts.1, counts.2 + 1)
        else counts) (e, n) =
      (e + (vs.countP (fun v => decide (v.Severity = checks.SeverityError)) : Nat),
       n + (vs.countP (fun v => decide (v.Severity = checks.SeverityWarning)) : Nat)) := by
  have hne : checks.SeverityError ≠ checks.SeverityWarning := by decide
  induction vs generalizing e n with
  | nil => simp
  | cons v rest ih =>
    rw [List.foldl_cons]
    by_cases h1 : v.Severity = checks.SeverityError
    · have h2 : v.Severity ≠ checks.SeverityWarning := fun h => hne (h1.symm.trans h)
      simp only [h1, if_true]
      rw [ih]
      simp [List.countP_cons, h1, hne, add_assoc, add_comm]
    · by_cases h2 : v.Severity = checks.SeverityWarning
      · simp only [h1, h2, if_true, if_false]
        rw [ih]
        simp [List.countP_cons, h1, h2, hne.symm, add_assoc, add_comm]
      · simp only [h1, h2, if_false]
        rw [ih]
        simp [List.countP_cons, h1, h2]

theorem countLoop_eq (vs : List checks.Violation) :
    countLoop vs =
      (((vs.countP (fun v => decide (v.Severity = checks.SeverityError)) : Nat) : Int),
       ((vs.countP (fun v => decide (v.Severity = checks.SeverityWarning)) : Nat) : Int)) := by
  unfold countLoop
  rw [countLoop_fold]
  simp

end main

namespace main

theorem run_unfold (w : World) (args : List GoString) :
    run w args =
      match collectLoop w (effectiveArgs args) [] with
      | .error e => ⟨[], some e⟩
      | .ok allFiles =>
        if (slicesSort allFiles).length = 0 then
          ⟨[], some (.errorf (goString "no Go files found in "
            ++ formatStrings (effectiveArgs args)))⟩
        else
          match parseLoop w (slicesSort allFiles) Slice.make0 with
          | .error e => ⟨[], some e⟩
          | .ok allViolations =>
            match w.Encode (report (slicesSort allFiles) allViolations) with
            | some err =>
              ⟨[report (slicesSort allFiles) allViolations],
                some (.errorf (goString "encoding output: " ++ err))⟩
            | none =>
              if (report (slicesSort allFiles) allViolations).Summary.Errors > 0 then
                ⟨[report (slicesSort allFiles) allViolations], some errViolationsFound⟩
              else ⟨[report (slicesSort allFiles) allViolations], none⟩ := rfl

theorem collectLoop_of_discoveryOk (w : World) (args : List GoString)
    (h : discoveryOk w args = true) :
    collectLoop w (effectiveArgs args) [] =
      .ok ((effectiveArgs args).map (fun arg => (collectGoFiles w arg).1)).flatten := by
  rw [collectLoop_ok w _ [] h]
  simp

theorem run_discovery_failed (w : World) (args : List GoString)
    (h : discoveryOk w args = false) :
    ∃ msg, run w args = ⟨[], some (.errorf msg)⟩ := by
  obtain ⟨msg, hmsg⟩ := collectLoop_err w (effectiveArgs args) [] h
  exact ⟨msg, by rw [run_unfold, hmsg]⟩

theorem run_no_files (w : World) (args : List GoString)
    (h : discoveryOk w args = true) (h2 : discoveredFiles w args = []) :
    run w args =
      ⟨[], some (.errorf (goString "no Go files found in "
        ++ formatStrings (effectiveArgs args)))⟩ := by
  rw [run_unfold, collectLoop_of_discoveryOk w args h]
  unfold discoveredFiles at h2
  simp [h2]

theorem run_parse_failed (w : World) (args : List GoString)
    (h : discoveryOk w args = true) (h2 : parsingOk w (discoveredFiles w args) = false) :
    ∃ msg, run w args = ⟨[], some (.errorf msg)⟩ := by
  by_cases hnil : discoveredFiles w args = []
  · exact ⟨_, run_no_files w args h hnil⟩
  · obtain ⟨msg, hmsg⟩ := parseLoop_err w (discoveredFiles w args) Slice.make0 h2
    refine ⟨msg, ?_⟩
    rw [run_unfold, collectLoop_of_discoveryOk w args h]
    unfold discoveredFiles at hnil hmsg
    have hlen : ¬ (slicesSort
        ((effectiveArgs args).map (fun arg => (collectGoFiles w arg).1)).flatten).length = 0 := by
      simpa using hnil
    simp only [hlen, if_false, hmsg]

theorem run_parsed (w : World) (args : List GoString)
    (h : discoveryOk w args = true) (hne : discoveredFiles w args ≠ [])
    (h2 : parsingOk w (discoveredFiles w args) = true) :
    run w args =
      match w.Encode (reportOf w args) with
      | some err => ⟨[reportOf w args], some (.errorf (goString "encoding output: " ++ err))⟩
      | none =>
        if (reportOf w args).Summary.Errors > 0 then
          ⟨[reportOf w args], some errViolationsFound⟩
        else ⟨[reportOf w args], none⟩ := by
  have hp := parseLoop_ok w (discoveredFiles w args) Slice.make0 h2
  rw [make0_append] at hp
  rw [run_unfold, collectLoop_of_discoveryOk w args h]
  unfold reportOf
  unfold discoveredFiles at hne hp ⊢
  have hlen : ¬ (slicesSort
      ((effectiveArgs args).map (fun arg => (collectGoFiles w arg).1)).flatten).length = 0 := by
    simpa using hne
  simp only [hlen, if_false, hp]

end main

/-! ## The fields of the violations -/

namespace checks

theorem param_check_eq (c : paramCountChecker) (fileSet : token.FileSet) (file : ast.File)
    (filename : GoString) :
    c.check fileSet file filename =
      ((funcDecls file).filter
        (fun fn => decide (c.maxParams < countParams fn.Typ.Params))).map
        (c.violation fileSet filename) := by
  unfold paramCountChecker.check
  rw [inspect_eq_foldl_funcDecls, foldl_append_filter_map
    (fun fn : ast.FuncDecl => decide (c.maxParams < countParams fn.Typ.Params))
    (c.violation fileSet filename) (c.visit fileSet filename)]
  · simp
  · intro vs fn h
    have hlt : c.maxParams < countParams fn.Typ.Params := by simpa using h
    simp [paramCountChecker.visit, paramCountChecker.violation, not_le.mpr hlt]
  · intro vs fn h
    have hle : countParams fn.Typ.Params ≤ c.maxParams := by simpa using h
    simp [paramCountChecker.visit, hle]

theorem prefix_check_fields (c : prefixChecker) (fileSet : token.FileSet) (file : ast.File)
    (filename : GoString) :
    ∀ v ∈ c.check fileSet file filename,
      v.Rule = c.rule ∧ v.File = filename ∧ v.Severity = SeverityError := by
  intro v hv
  rw [prefix_check_eq] at hv
  obtain ⟨fn, _, rfl⟩ := List.mem_map.mp hv
  exact ⟨rfl, rfl, rfl⟩

theorem param_check_fields (c : paramCountChecker) (fileSet : token.FileSet) (file : ast.File)
    (filename : GoString) :
    ∀ v ∈ c.check fileSet file filename,
      v.Rule = c.rule ∧ v.File = filename ∧ v.Severity = SeverityError := by
  intro v hv
  rw [param_check_eq] at hv
  obtain ⟨fn, _, rfl⟩ := List.mem_map.mp hv
  exact ⟨rfl, rfl, rfl⟩

/-- Every violation of the ordering check is the violation of a flagged
declaration against the high-water mark of the declarations before it. -/
theorem ordering_check_mem (c : fileOrderingChecker) (fileSet : token.FileSet)
    (filename : GoString) (ds : List ast.Decl) :
    ∀ v ∈ c.check fileSet ⟨ds⟩ filename, ∃ i d, ds[i]? = some d ∧ skipped fileSet d = false ∧
      sectionOf fileSet d < highWater fileSet (ds.take i) ∧
      v = c.violation filename (fileSet.Position (declPos d)) (sectionOf fileSet d)
        (highWater fileSet (ds.take i)) := by
  intro v hv
  rw [ordering_check_eq, orderingSpec] at hv
  obtain ⟨i, hi, hvi⟩ := List.mem_filterMap.mp hv
  have hfl := (List.mem_filter.mp hi).2
  unfold flaggedAt at hfl
  unfold violationAt at hvi
  cases hd : ds[i]? with
  | none => simp [hd] at hfl
  | some d =>
    simp only [hd, Bool.and_eq_true, Bool.not_eq_true', decide_eq_true_eq] at hfl
    simp only [hd, Option.some.injEq] at hvi
    exact ⟨i, d, hd, hfl.1, hfl.2, hvi.symm⟩

theorem ordering_check_fields (c : fileOrderingChecker) (fileSet : token.FileSet)
    (file : ast.File) (filename : GoString) :
    ∀ v ∈ c.check fileSet file filename,
      v.Rule = c.rule ∧ v.File = filename ∧ v.Severity = SeverityError := by
  intro v hv
  obtain ⟨ds⟩ := file
  obtain ⟨i, d, _, _, _, rfl⟩ := ordering_check_mem c fileSet filename ds v hv
  exact ⟨rfl, rfl, rfl⟩

theorem run_fields (fileSet : token.FileSet) (file : ast.File) (filename : GoString) :
    ∀ v ∈ (Run fileSet file filename).elems,
      v.Severity = SeverityError ∧
      (v.Rule = ruleNoGetPrefix ∨ v.Rule = ruleParamCount ∨ v.Rule = ruleFileOrdering) ∧
      v.File = filename := by
  intro v hv
  rw [run_elems] at hv
  rcases List.mem_append.mp hv with h | h
  · rcases List.mem_append.mp h with h | h
    · obtain ⟨h1, h2, h3⟩ := prefix_check_fields _ fileSet file filename v h
      exact ⟨h3, Or.inl h1, h2⟩
    · obtain ⟨h1, h2, h3⟩ := param_check_fields _ fileSet file filename v h
      exact ⟨h3, Or.inr (Or.inl h1), h2⟩
  · obtain ⟨h1, h2, h3⟩ := ordering_check_fields _ fileSet file filename v h
    exact ⟨h3, Or.inr (Or.inr h1), h2⟩

end checks

namespace main

theorem fileViolations_fields (w : World) (filename : GoString) :
    ∀ v ∈ fileViolations w filename, v.Severity = checks.SeverityError ∧ v.File = filename := by
  intro v hv
  unfold fileViolations at hv
  cases hp : w.ParseFile filename with
  | error e => simp [hp] at hv
  | ok file =>
    simp only [hp] at hv
    obtain ⟨h1, _, h3⟩ := checks.run_fields w.fileSet file filename v hv
    exact ⟨h1, h3⟩

theorem violationsOf_severity (w : World) (files : List GoString) :
    ∀ v ∈ violationsOf w files, v.Severity = checks.SeverityError := by
  intro v hv
  unfold violationsOf at hv
  obtain ⟨l, hl, hvl⟩ := List.mem_flatten.mp hv
  obtain ⟨f, _, rfl⟩ := List.mem_map.mp hl
  exact (fileViolations_fields w f v hvl).1

/-- A report handed to the encoder is the report of a run in which discovery
and parsing have succeeded on at least one file. -/
theorem run_encoded_mem (w : World) (args : List GoString) (out : output)
    (h : out ∈ (run w args).encoded) :
    discoveryOk w args = true ∧ discoveredFiles w args ≠ [] ∧
      parsingOk w (discoveredFiles w args) = true ∧ out = reportOf w args := by
  cases hd : discoveryOk w args with
  | false =>
    obtain ⟨msg, hmsg⟩ := run_discovery_failed w args hd
    simp [hmsg] at h
  | true =>
    by_cases hnil : discoveredFiles w args = []
    · simp [run_no_files w args hd hnil] at h
    · cases hp : parsingOk w (discoveredFiles w args) with
      | false =>
        obtain ⟨msg, hmsg⟩ := run_parse_failed w args hd hp
        simp [hmsg] at h
      | true =>
        rw [run_parsed w args hd hnil hp] at h
        refine ⟨rfl, hnil, rfl, ?_⟩
        cases he : w.Encode (reportOf w args) with
        | some err => simpa [he] using h
        | none =>
          simp only [he] at h
          split at h <;> simpa using h

end main

/-! ## The dispatcher and the report: the claims -/

namespace checks

/-- C12, refuted at testdata/ordering_good.go: none of the three checkers
finds a violation there, and the slice Run returns has no element and is the
nil slice, not an allocated empty one. -/
theorem run_clean_file_is_nil_slice :
    (newPrefixChecker (goString "Get") ruleNoGetPrefix).check lineFileSet orderingGoodFile
        (goString "testdata/ordering_good.go") = []
      ∧ (paramCountChecker.mk 4 ruleParamCount).check lineFileSet orderingGoodFile
          (goString "testdata/ordering_good.go") = []
      ∧ (fileOrderingChecker.mk ruleFileOrdering).check lineFileSet orderingGoodFile
          (goString "testdata/ordering_good.go") = []
      ∧ (Run lineFileSet orderingGoodFile (goString "testdata/ordering_good.go")).elems = []
      ∧ (Run lineFileSet orderingGoodFile (goString "testdata/ordering_good.go")).isNil = true
      ∧ Run lineFileSet orderingGoodFile (goString "testdata/ordering_good.go")
          ≠ Slice.make0 := by
  decide

/-- C12, amended.  When no checker finds a violation, Run returns a slice of
length zero, and that slice is the nil slice: Run starts from a nil slice
and appends nothing.  The report of the command still holds a list that is
not nil, since run collects the violations of the files in a slice made by
make. -/
theorem run_without_violations_is_nil (fileSet : token.FileSet) (file : ast.File)
    (filename : GoString)
    (h1 : (newPrefixChecker (goString "Get") ruleNoGetPrefix).check fileSet file filename = [])
    (h2 : (paramCountChecker.mk 4 ruleParamCount).check fileSet file filename = [])
    (h3 : (fileOrderingChecker.mk ruleFileOrdering).check fileSet file filename = []) :
    (Run fileSet file filename).elems.length = 0
      ∧ (Run fileSet file filename).isNil = true
      ∧ Run fileSet file filename = Slice.nil
      ∧ (∀ (w : main.World) (args : List GoString) (out : main.output),
          out ∈ (main.run w args).encoded → out.Violations.isNil = false) := by
  have he : (Run fileSet file filename).elems = [] := by
    rw [run_elems, h1, h2, h3]; rfl
  have hn : (Run fileSet file filename).isNil = true := by
    rw [run_isNil, he]; rfl
  refine ⟨by rw [he]; rfl, hn, ?_, ?_⟩
  · cases hr : Run fileSet file filename with
    | mk elems isNil =>
      rw [hr] at he hn
      simp only at he hn
      rw [he, hn]
      rfl
  · intro w args out hout
    obtain ⟨_, _, _, rfl⟩ := main.run_encoded_mem w args out hout
    rfl

/-- Witness of the amended C12: on testdata/ordering_good.go Run returns the
nil slice, and the report of the command on a clean file holds a list that is
empty and not nil. -/
theorem run_without_violations_is_nil_witness :
    Run lineFileSet orderingGoodFile (goString "testdata/ordering_good.go") = Slice.nil
      ∧ (main.reportOf main.cleanWorld [goString "/tmp/t"]).Violations = Slice.make0 :=
  ⟨(run_without_violations_is_nil lineFileSet orderingGoodFile
      (goString "testdata/ordering_good.go") (by decide) (by decide) (by decide)).2.2.1,
    by decide⟩

/-- C13, evaluated where the code departs from it.  The file that declares
only `func Getümmel()` has its declarations in canonical order, no function
with more than 4 parameters, and no name made of Get and an upper case letter:
the character after Get is U+00FC, a lower case letter.  The parameter check
and the ordering check return nothing, but the naming check reads the byte C3
as a rune of its own and reports the function, so Run returns one violation. -/
theorem run_flags_clean_file_with_lower_case_of_two_bytes :
    List.Chain' (fun a b : sectionKind => a ≤ b)
        (keptSections lineFileSet [plainFunc 3 "Getümmel"])
      ∧ utf8DecodeRune ((goString "Getümmel").drop (goString "Get").length) = some 0xFC
      ∧ unicode.IsLower 0xFC = true
      ∧ unicode.IsUpper 0xFC = false
      ∧ countParams (some ⟨[]⟩) ≤ 4
      ∧ (paramCountChecker.mk 4 ruleParamCount).check lineFileSet
          ⟨[plainFunc 3 "Getümmel"]⟩ (goString "crowd.go") = []
      ∧ (fileOrderingChecker.mk ruleFileOrdering).check lineFileSet
          ⟨[plainFunc 3 "Getümmel"]⟩ (goString "crowd.go") = []
      ∧ (newPrefixChecker (goString "Get") ruleNoGetPrefix).check lineFileSet
          ⟨[plainFunc 3 "Getümmel"]⟩ (goString "crowd.go") =
        [⟨ruleNoGetPrefix, goString "crowd.go", 3, goString "Getümmel() should be ümmel()",
          SeverityError, goString "Rename to ümmel()"⟩]
      ∧ (Run lineFileSet ⟨[plainFunc 3 "Getümmel"]⟩ (goString "crowd.go")).elems.length = 1 :=
  ⟨List.Pairwise.chain' (by decide), by decide, by decide, by decide, by decide, by decide,
    by decide, by decide, by decide⟩

end checks

namespace main

theorem report_fields (allFiles : List GoString) (allViolations : Slice checks.Violation) :
    (report allFiles allViolations).Summary.Errors =
        ((allViolations.elems.countP
          (fun v => decide (v.Severity = checks.SeverityError)) : Nat) : Int)
      ∧ (report allFiles allViolations).Summary.Warnings =
        ((allViolations.elems.countP
          (fun v => decide (v.Severity = checks.SeverityWarning)) : Nat) : Int)
      ∧ (report allFiles allViolations).Summary.FilesChecked = (allFiles.length : Int)
      ∧ (report allFiles allViolations).Violations = allViolations
      ∧ ((report allFiles allViolations).Pass = true ↔
          (report allFiles allViolations).Summary.Errors = 0) := by
  unfold report
  simp [countLoop_eq]

/-- C14. Every report run hands to the encoder is built from the sorted list
of the files collected, all of which have parsed, and from the violations Run
returns on these files, file by file: files_checked is the number of these
files, errors the number of violations with severity "error", warnings the
number with severity "warning", and pass is true if and only if errors is 0,
that is if and only if no violation has severity "error". -/
theorem report_summary_counts (w : World) (args : List GoString) (out : output)
    (h : out ∈ (run w args).encoded) :
    parsingOk w (discoveredFiles w args) = true
      ∧ out.Violations.elems = violationsOf w (discoveredFiles w args)
      ∧ out.Summary.FilesChecked = ((discoveredFiles w args).length : Int)
      ∧ out.Summary.Errors =
          ((out.Violations.elems.countP
            (fun v => decide (v.Severity = goString "error")) : Nat) : Int)
      ∧ out.Summary.Warnings =
          ((out.Violations.elems.countP
            (fun v => decide (v.Severity = goString "warning")) : Nat) : Int)
      ∧ (out.Pass = true ↔ out.Summary.Errors = 0)
      ∧ (out.Pass = true ↔ ∀ v ∈ out.Violations.elems, v.Severity ≠ checks.SeverityError) := by
  obtain ⟨_, _, hp, rfl⟩ := run_encoded_mem w args out h
  obtain ⟨h1, h2, h3, h4, h5⟩ :=
    report_fields (discoveredFiles w args) ⟨violationsOf w (discoveredFiles w args), false⟩
  refine ⟨hp, ?_, h3, ?_, ?_, h5, ?_⟩
  · unfold reportOf; rw [h4]
  · unfold reportOf; rw [h1, h4]; rfl
  · unfold reportOf; rw [h2, h4]; rfl
  · unfold reportOf
    rw [h5, h1, h4]
    simp [List.countP_eq_zero]

/-- Witness of C14: the report of the run of TestRun_ViolationsFound counts
one file, one error and no warning, and does not pass. -/
theorem report_summary_counts_witness :
    reportOf violationsWorld [goString "/tmp/t"] ∈
        (run violationsWorld [goString "/tmp/t"]).encoded
      ∧ (reportOf violationsWorld [goString "/tmp/t"]).Summary = ⟨1, 1, 0⟩
      ∧ (reportOf violationsWorld [goString "/tmp/t"]).Pass = false
      ∧ (reportOf violationsWorld [goString "/tmp/t"]).Summary.Errors =
          (((reportOf violationsWorld [goString "/tmp/t"]).Violations.elems.countP
            (fun v => decide (v.Severity = goString "error")) : Nat) : Int) :=
  ⟨by decide, by decide, by decide,
    (report_summary_counts violationsWorld [goString "/tmp/t"]
      (reportOf violationsWorld [goString "/tmp/t"]) (by decide)).2.2.2.1⟩

end main

namespace main

theorem main_of_err (w : World) (args : List GoString) :
    ((run w args).err = none → main w args = 0)
      ∧ ((run w args).err = some errViolationsFound → main w args = 1)
      ∧ (∀ msg, (run w args).err = some (.errorf msg) → main w args = 2) := by
  refine ⟨?_, ?_, ?_⟩
  · intro h; simp [main, h]
  · intro h; simp [main, h, errorsIs]
  · intro msg h; simp [main, h, errorsIs, errViolationsFound]

theorem discoveryOk_false_of_err (w : World) (args : List GoString) (arg : GoString)
    (harg : arg ∈ effectiveArgs args) (h : (collectGoFiles w arg).2 ≠ none) :
    discoveryOk w args = false := by
  unfold discoveryOk
  rw [List.all_eq_false]
  refine ⟨arg, harg, ?_⟩
  cases hc : (collectGoFiles w arg).2 with
  | none => exact absurd hc h
  | some e => simp

theorem errors_pos_iff (w : World) (args : List GoString) :
    (reportOf w args).Summary.Errors > 0 ↔
      ∃ v ∈ violationsOf w (discoveredFiles w args), v.Severity = checks.SeverityError := by
  unfold reportOf
  rw [(report_fields _ _).1]
  simp [List.countP_pos_iff]

/-- C15. The outcome of run and the exit status of main.  When discovery,
parsing and encoding all succeed, run returns nil and main exits with 0 if no
violation has severity Error, and run returns errViolationsFound and main
exits with 1 if at least one has.  When discovery fails on an argument, when
no file is found, when a file does not parse or when encoding fails, run
returns an error made by Errorf, which is not errViolationsFound, and main
exits with 2; a path that Stat does not find and an explicit file that is not
a Go source file make discovery fail, and the error of a run without files
starts with "no Go files found in ". -/
theorem run_exit_codes (w : World) (args : List GoString) :
    (discoveryOk w args = true → discoveredFiles w args ≠ [] →
        parsingOk w (discoveredFiles w args) = true → w.Encode (reportOf w args) = none →
        ((∀ v ∈ violationsOf w (discoveredFiles w args), v.Severity ≠ checks.SeverityError) →
            (run w args).err = none ∧ main w args = 0)
        ∧ ((∃ v ∈ violationsOf w (discoveredFiles w args), v.Severity = checks.SeverityError) →
            (run w args).err = some errViolationsFound ∧ main w args = 1))
      ∧ ((discoveryOk w args = false ∨ discoveredFiles w args = [] ∨
            parsingOk w (discoveredFiles w args) = false ∨
            (w.Encode (reportOf w args)).isSome = true) →
          ∃ msg, (run w args).err = some (.errorf msg) ∧
            GoError.errorf msg ≠ errViolationsFound ∧ main w args = 2)
      ∧ (∀ arg ∈ effectiveArgs args, ∀ e, w.Stat arg = .error e → discoveryOk w args = false)
      ∧ (∀ arg ∈ effectiveArgs args, ∀ name, w.Stat arg = .ok (.file name) →
          (strings.HasSuffix arg (goString "_test.go") = true ∨
            strings.HasSuffix arg (goString ".go") = false) →
          discoveryOk w args = false)
      ∧ (discoveryOk w args = true → discoveredFiles w args = [] →
          (run w args).err = some (.errorf (goString "no Go files found in "
            ++ formatStrings (effectiveArgs args)))) := by
  obtain ⟨hm0, hm1, hm2⟩ := main_of_err w args
  have hfail : ∀ msg, run w args = ⟨[], some (.errorf msg)⟩ →
      ∃ msg, (run w args).err = some (.errorf msg) ∧
        GoError.errorf msg ≠ errViolationsFound ∧ main w args = 2 := by
    intro msg h
    exact ⟨msg, by rw [h], by simp [errViolationsFound], hm2 msg (by rw [h])⟩
  refine ⟨?_, ?_, ?_, ?_, ?_⟩
  · intro hd hne hp he
    have hrun := run_parsed w args hd hne hp
    rw [he] at hrun
    simp only [] at hrun
    constructor
    · intro hnone
      have hnot : ¬ (reportOf w args).Summary.Errors > 0 := by
        rw [errors_pos_iff]
        rintro ⟨v, hv, hsev⟩
        exact hnone v hv hsev
      rw [if_neg hnot] at hrun
      have herr : (run w args).err = none := by rw [hrun]
      exact ⟨herr, hm0 herr⟩
    · intro hsome
      have hpos : (reportOf w args).Summary.Errors > 0 := (errors_pos_iff w args).mpr hsome
      rw [if_pos hpos] at hrun
      have herr : (run w args).err = some errViolationsFound := by rw [hrun]
      exact ⟨herr, hm1 herr⟩
  · intro h
    cases hd : discoveryOk w args with
    | false =>
      obtain ⟨msg, hmsg⟩ := run_discovery_failed w args hd
      exact hfail msg hmsg
    | true =>
      by_cases hnil : discoveredFiles w args = []
      · exact hfail _ (run_no_files w args hd hnil)
      · cases hp : parsingOk w (discoveredFiles w args) with
        | false =>
          obtain ⟨msg, hmsg⟩ := run_parse_failed w args hd hp
          exact hfail msg hmsg
        | true =>
          have he : (w.Encode (reportOf w args)).isSome = true := by
            rcases h with h | h | h | h
            · rw [hd] at h; exact absurd h (by simp)
            · exact absurd h hnil
            · rw [hp] at h; exact absurd h (by simp)
            · exact h
          obtain ⟨err, herr⟩ := Option.isSome_iff_exists.mp he
          have hrun := run_parsed w args hd hnil hp
          rw [herr] at hrun
          simp only [] at hrun
          exact ⟨_, by rw [hrun], by simp [errViolationsFound], hm2 _ (by rw [hrun])⟩
  · intro arg harg e hstat
    apply discoveryOk_false_of_err w args arg harg
    simp [collectGoFiles, hstat]
  · intro arg harg name hstat hsuffix
    apply discoveryOk_false_of_err w args arg harg
    rcases hsuffix with h | h
    · simp [collectGoFiles, hstat, filepath.FsNode.IsDir, h]
    · by_cases ht : strings.HasSuffix arg (goString "_test.go") = true
      · simp [collectGoFiles, hstat, filepath.FsNode.IsDir, ht]
      · simp [collectGoFiles, hstat, filepath.FsNode.IsDir, ht, h]
  · intro hd hnil
    rw [run_no_files w args hd hnil]

/-- Witness of C15: a directory whose file declares func GetName gives
errViolationsFound and the exit status 1, an empty directory gives an error
that starts with "no Go files found" and the exit status 2, and a directory
with a clean file gives nil and the exit status 0. -/
theorem run_exit_codes_witness :
    ((run violationsWorld [goString "/tmp/t"]).err = some errViolationsFound ∧
        main violationsWorld [goString "/tmp/t"] = 1)
      ∧ (run emptyDirWorld [goString "/tmp/t"]).err =
          some (.errorf (goString "no Go files found in [/tmp/t]"))
      ∧ main emptyDirWorld [goString "/tmp/t"] = 2
      ∧ ((run cleanWorld [goString "/tmp/t"]).err = none ∧
          main cleanWorld [goString "/tmp/t"] = 0)
      ∧ discoveryOk textFileWorld [goString "/tmp/t"] = false :=
  ⟨((run_exit_codes violationsWorld [goString "/tmp/t"]).1 (by decide) (by decide)
      (by decide) (by decide)).2
      ⟨⟨checks.ruleNoGetPrefix, goString "/tmp/t/bad.go", 3,
          goString "GetName() should be Name()", checks.SeverityError,
          goString "Rename to Name()"⟩, by decide, by decide⟩,
    ((run_exit_codes emptyDirWorld [goString "/tmp/t"]).2.2.2.2 (by decide) (by decide)).trans
      (by decide),
    by decide,
    ((run_exit_codes cleanWorld [goString "/tmp/t"]).1 (by decide) (by decide)
      (by decide) (by decide)).1 (by decide),
    (run_exit_codes textFileWorld [goString "/tmp/t"]).2.2.2.1 (goString "/tmp/t") (by decide)
      (goString "t") rfl (Or.inr (by decide))⟩

end main

namespace main

/-- C16. When collectGoFiles returns an error on some argument, or some file
of the batch does not parse, run returns an error and hands no report to the
encoder: nothing is written to standard output, not even the violations of
the files that parsed before the failure. -/
theorem run_writes_nothing_on_failure (w : World) (args : List GoString)
    (h : (∃ arg ∈ effectiveArgs args, (collectGoFiles w arg).2 ≠ none) ∨
      (∃ f ∈ discoveredFiles w args, parses w f = false)) :
    (run w args).encoded = []
      ∧ (∃ msg, (run w args).err = some (.errorf msg))
      ∧ main w args = 2 := by
  have hfail : ∃ msg, run w args = ⟨[], some (.errorf msg)⟩ := by
    cases hd : discoveryOk w args with
    | false => exact run_discovery_failed w args hd
    | true =>
      rcases h with ⟨arg, harg, herr⟩ | ⟨f, hf, hpf⟩
      · rw [discoveryOk_false_of_err w args arg harg herr] at hd
        exact absurd hd (by simp)
      · apply run_parse_failed w args hd
        unfold parsingOk
        rw [List.all_eq_false]
        exact ⟨f, hf, by simp [hpf]⟩
  obtain ⟨msg, hmsg⟩ := hfail
  refine ⟨by rw [hmsg], ⟨msg, by rw [hmsg]⟩, ?_⟩
  exact (main_of_err w args).2.2 msg (by rw [hmsg])

/-- Witness of C16: in a directory where a.go parses, with a violation, and
b.go does not parse, run returns the parse error and writes no report. -/
theorem run_writes_nothing_on_failure_witness :
    fileViolations parseFailureWorld (goString "/tmp/t/a.go") ≠ []
      ∧ parses parseFailureWorld (goString "/tmp/t/b.go") = false
      ∧ (run parseFailureWorld [goString "/tmp/t"]).encoded = []
      ∧ (run parseFailureWorld [goString "/tmp/t"]).err =
          some (.errorf (goString "parsing /tmp/t/b.go: /tmp/t/b.go:1:1: expected package")) :=
  ⟨by decide, by decide,
    (run_writes_nothing_on_failure parseFailureWorld [goString "/tmp/t"]
      (Or.inr ⟨goString "/tmp/t/b.go", by decide, by decide⟩)).1,
    by decide⟩

end main

namespace checks

/-- C19. Every violation Run returns has severity Error, one of the rule ids
no-get-prefix, param-count and file-ordering, and the filename passed to Run
as its file; so in every report of the command the count of warnings is 0 and
pass is true if and only if the list of violations is empty. -/
theorem run_violations_are_errors (fileSet : token.FileSet) (file : ast.File)
    (filename : GoString) :
    (∀ v ∈ (Run fileSet file filename).elems,
        v.Severity = goString "error" ∧
        (v.Rule = goString "no-get-prefix" ∨ v.Rule = goString "param-count" ∨
          v.Rule = goString "file-ordering") ∧
        v.File = filename)
      ∧ (∀ (w : main.World) (args : List GoString) (out : main.output),
          out ∈ (main.run w args).encoded →
          out.Summary.Warnings = 0 ∧ (out.Pass = true ↔ out.Violations.elems = [])) := by
  refine ⟨run_fields fileSet file filename, ?_⟩
  intro w args out hout
  obtain ⟨_, _, _, rfl⟩ := main.run_encoded_mem w args out hout
  have hsev := main.violationsOf_severity w (main.discoveredFiles w args)
  obtain ⟨h1, h2, _, h4, h5⟩ := main.report_fields (main.discoveredFiles w args)
    ⟨main.violationsOf w (main.discoveredFiles w args), false⟩
  have hne : SeverityError ≠ SeverityWarning := by decide
  unfold main.reportOf
  constructor
  · rw [h2]
    have : (main.violationsOf w (main.discoveredFiles w args)).countP
        (fun v => decide (v.Severity = SeverityWarning)) = 0 := by
      rw [List.countP_eq_zero]
      intro v hv
      have := hsev v hv
      simp [this, hne]
    simp [this]
  · rw [h5, h1, h4]
    constructor
    · intro hz
      have hz2 : (main.violationsOf w (main.discoveredFiles w args)).countP
          (fun v => decide (v.Severity = SeverityError)) = 0 := by
        simpa using hz
      rw [List.countP_eq_zero] at hz2
      apply List.eq_nil_iff_forall_not_mem.mpr
      intro v hv
      have := hz2 v hv
      simp [hsev v hv] at this
    · intro hnil
      simp only at hnil
      simp [hnil]

/-- Witness of C19: the report of TestRun_ViolationsFound has no warning and
does not pass, its list of violations being non-empty; the report of
TestRun_CleanFiles passes with an empty list. -/
theorem run_violations_are_errors_witness :
    ((main.reportOf main.violationsWorld [goString "/tmp/t"]).Summary.Warnings = 0 ∧
        ((main.reportOf main.violationsWorld [goString "/tmp/t"]).Pass = true ↔
          (main.reportOf main.violationsWorld [goString "/tmp/t"]).Violations.elems = []))
      ∧ (main.reportOf main.violationsWorld [goString "/tmp/t"]).Pass = false
      ∧ (main.reportOf main.cleanWorld [goString "/tmp/t"]).Pass = true
      ∧ (main.reportOf main.cleanWorld [goString "/tmp/t"]).Violations.elems = [] :=
  ⟨(run_violations_are_errors lineFileSet orderingGoodFile (goString "x.go")).2
      main.violationsWorld [goString "/tmp/t"]
      (main.reportOf main.violationsWorld [goString "/tmp/t"]) (by decide),
    by decide, by decide, by decide⟩

end checks

/-! ## The ordering check: what is flagged, and where -/

namespace checks

theorem flaggedAt_funcDecl (fileSet : token.FileSet) (ds : List ast.Decl) (i : Nat)
    (fn : ast.FuncDecl) (h : ds[i]? = some (.FuncDecl fn)) : flaggedAt fileSet ds i = false := by
  unfold flaggedAt
  rw [h]
  have hle := highWater_le_func fileSet (ds.take i)
  have hs : sectionOf fileSet (.FuncDecl fn) = sectionFunc := rfl
  simp [hs, not_lt.mpr hle]

theorem below_functions_mem (c : fileOrderingChecker) (fileSet : token.FileSet)
    (filename : GoString) (pre mid post : List ast.Decl) (fn : ast.FuncDecl) (d : ast.Decl)
    (hfn : fn.Name.Name ≠ goString "init") (hk : skipped fileSet d = false)
    (hlt : sectionOf fileSet d < sectionFunc) :
    c.violation filename (fileSet.Position (declPos d)) (sectionOf fileSet d) sectionFunc ∈
      c.check fileSet ⟨(pre ++ .FuncDecl fn :: mid) ++ d :: post⟩ filename := by
  have hhw := highWater_eq_func fileSet pre mid fn hfn
  have h0 : highWater fileSet [] = sectionNone := by simp [highWater, keptSections]
  have h1 := ordering_loop c fileSet filename (pre ++ .FuncDecl fn :: mid) [] []
  rw [h0] at h1
  simp only [List.nil_append] at h1
  rw [hhw] at h1
  unfold fileOrderingChecker.check
  simp only []
  rw [List.foldl_append, h1, List.foldl_cons, checkBody_kept c fileSet filename _ _ d hk]
  have hmax : max sectionFunc (sectionOf fileSet d) =
      highWater fileSet ((pre ++ .FuncDecl fn :: mid) ++ [d]) := by
    rw [highWater_snoc_kept _ _ _ hk, hhw]
  rw [if_pos hlt, hmax, ordering_loop]
  simp

theorem mem_take_succ_of_getElem? {α : Type} (l : List α) (i : Nat) (x : α)
    (h : l[i]? = some x) : x ∈ l.take (i + 1) := by
  induction l generalizing i with
  | nil => simp at h
  | cons y ys ih =>
    cases i with
    | zero =>
      simp only [List.getElem?_cons_zero, Option.some.injEq] at h
      simp [h]
    | succ j =>
      simp only [List.getElem?_cons_succ] at h
      simp only [List.take_succ_cons]
      exact List.mem_cons_of_mem _ (ih j h)

theorem sectionOf_le_highWater (fileSet : token.FileSet) (ds : List ast.Decl) (d : ast.Decl)
    (hmem : d ∈ ds) (hk : skipped fileSet d = false) :
    sectionOf fileSet d ≤ highWater fileSet ds := by
  apply (highWater_is_max fileSet ds).1
  unfold keptSections
  exact List.mem_map.mpr ⟨d, List.mem_filter.mpr ⟨hmem, by simp [hk]⟩, rfl⟩

theorem flaggedAt_of_lower_than_previous (fileSet : token.FileSet) (ds : List ast.Decl)
    (i : Nat) (prev d : ast.Decl) (hprev : ds[i]? = some prev) (hd : ds[i + 1]? = some d)
    (hkp : skipped fileSet prev = false) (hkd : skipped fileSet d = false)
    (hlt : sectionOf fileSet d < sectionOf fileSet prev) :
    flaggedAt fileSet ds (i + 1) = true := by
  unfold flaggedAt
  rw [hd]
  have hle := sectionOf_le_highWater fileSet (ds.take (i + 1)) prev
    (mem_take_succ_of_getElem? ds i prev hprev) hkp
  simp [hkd, lt_of_lt_of_le hlt hle]

theorem highWater_of_all_skipped (fileSet : token.FileSet) (ds : List ast.Decl)
    (h : ∀ d ∈ ds, skipped fileSet d = true) : highWater fileSet ds = sectionNone := by
  have : keptSections fileSet ds = [] := by
    unfold keptSections
    rw [List.map_eq_nil_iff, List.filter_eq_nil_iff]
    intro d hd
    simp [h d hd]
  simp [highWater, this]

end checks

namespace checks

theorem flagged_violation_mem (c : fileOrderingChecker) (fileSet : token.FileSet)
    (filename : GoString) (ds : List ast.Decl) (i : Nat) (d : ast.Decl)
    (hd : ds[i]? = some d) (hf : flaggedAt fileSet ds i = true) :
    c.violation filename (fileSet.Position (declPos d)) (sectionOf fileSet d)
        (highWater fileSet (ds.take i)) ∈ c.check fileSet ⟨ds⟩ filename := by
  rw [ordering_check_eq, orderingSpec]
  apply List.mem_filterMap.mpr
  refine ⟨i, List.mem_filter.mpr ⟨List.mem_range.mpr ?_, hf⟩, ?_⟩
  · by_contra hge
    rw [List.getElem?_eq_none (Nat.le_of_not_lt hge)] at hd
    exact Option.noConfusion hd
  · simp [violationAt, hd]

/-- C17, refuted.  In the file where the method M on line 5 follows the
declaration of its receiver type and a const declaration follows on line 9,
the ordering check reports one violation, on line 9 and about the constants
section; the method is not flagged and no violation is on its line. -/
theorem ordering_check_reports_after_method_not_method :
    methodAfterTypeFile.Decls.map (fun d => (lineFileSet.Position (declPos d)).Line) = [3, 5, 9]
      ∧ (fileOrderingChecker.mk ruleFileOrdering).check lineFileSet methodAfterTypeFile
          (goString "t.go") =
        [⟨ruleFileOrdering, goString "t.go", 9,
          goString "constants section appears after functions section", SeverityError, []⟩]
      ∧ (∀ v ∈ (fileOrderingChecker.mk ruleFileOrdering).check lineFileSet methodAfterTypeFile
          (goString "t.go"), v.Line ≠ 5)
      ∧ flaggedAt lineFileSet methodAfterTypeFile.Decls 1 = false := by
  decide

/-- C17, amended.  In every file in which a method not named init is placed
after the declaration of its receiver type and a declaration of the const,
var, interface or type section follows the method, the ordering check reports
a violation at the declaration that follows, with the message made of the
name of its section and "section appears after functions section"; the method
itself is not flagged, as no function or method declaration ever is. -/
theorem ordering_check_flags_declaration_after_method (c : fileOrderingChecker)
    (fileSet : token.FileSet) (filename : GoString) (pre mid post : List ast.Decl)
    (typeDecl d : ast.Decl) (m : ast.FuncDecl)
    (hm : m.Name.Name ≠ goString "init")
    (hd : sectionOf fileSet d = sectionConst ∨ sectionOf fileSet d = sectionVar ∨
      sectionOf fileSet d = sectionInterface ∨ sectionOf fileSet d = sectionType) :
    flaggedAt fileSet ((pre ++ typeDecl :: .FuncDecl m :: mid) ++ d :: post)
        (pre.length + 1) = false
      ∧ (∀ (ds : List ast.Decl) (i : Nat) (fn : ast.FuncDecl),
          ds[i]? = some (.FuncDecl fn) → flaggedAt fileSet ds i = false)
      ∧ ({ Rule := c.rule
           File := filename
           Line := (fileSet.Position (declPos d)).Line
           Message := sectionName (sectionOf fileSet d)
             ++ goString " section appears after functions section"
           Severity := SeverityError
           Suggestion := [] } : Violation) ∈
          c.check fileSet ⟨(pre ++ typeDecl :: .FuncDecl m :: mid) ++ d :: post⟩ filename := by
  have hlt : sectionOf fileSet d < sectionFunc := by
    rcases hd with h | h | h | h <;> rw [h] <;> decide
  have hne : sectionOf fileSet d ≠ sectionNone := by
    rcases hd with h | h | h | h <;> rw [h] <;> decide
  have hk : skipped fileSet d = false := by
    cases d with
    | GenDecl p t specs => simp [skipped, hne, isInitFuncDecl]
    | FuncDecl fn =>
      have : sectionOf fileSet (.FuncDecl fn) = sectionFunc := rfl
      rw [this] at hlt
      exact absurd hlt (lt_irrefl _)
    | BadDecl p => exact absurd rfl hne
  refine ⟨?_, fun ds i fn h => flaggedAt_funcDecl fileSet ds i fn h, ?_⟩
  · apply flaggedAt_funcDecl fileSet _ _ m
    have : (pre ++ typeDecl :: .FuncDecl m :: mid) ++ d :: post =
        (pre ++ [typeDecl]) ++ (.FuncDecl m :: (mid ++ d :: post)) := by simp
    rw [this, List.getElem?_append_right (by simp)]
    simp
  · have h := below_functions_mem c fileSet filename (pre ++ [typeDecl]) mid post m d hm hk hlt
    have hlist : (pre ++ [typeDecl] ++ .FuncDecl m :: mid) ++ d :: post =
        (pre ++ typeDecl :: .FuncDecl m :: mid) ++ d :: post := by simp
    rw [hlist] at h
    have hmsg : sectionName (sectionOf fileSet d) ++ goString " section appears after "
        ++ sectionName sectionFunc ++ goString " section" =
        sectionName (sectionOf fileSet d)
          ++ goString " section appears after functions section" := by
      have hc : goString " section appears after " ++ sectionName sectionFunc
          ++ goString " section" = goString " section appears after functions section" := by
        decide
      rw [← hc]
      simp [List.append_assoc]
    simpa only [fileOrderingChecker.violation, hmsg] using h

/-- Witness of the amended C17: the file with the method M after its receiver
type and a const after the method. -/
theorem ordering_check_flags_declaration_after_method_witness :
    flaggedAt lineFileSet methodAfterTypeFile.Decls 1 = false
      ∧ (⟨ruleFileOrdering, goString "t.go", 9,
          goString "constants section appears after functions section", SeverityError, []⟩ :
          Violation) ∈
        (fileOrderingChecker.mk ruleFileOrdering).check lineFileSet methodAfterTypeFile
          (goString "t.go") :=
  ⟨(ordering_check_flags_declaration_after_method (fileOrderingChecker.mk ruleFileOrdering)
      lineFileSet (goString "t.go") [] [] [] (structDecl 3 "T")
      (.GenDecl 9 .CONST [.ValueSpec [⟨goString "limit"⟩]]) (methodDecl 5 "t" "T" "M")
      (by decide) (Or.inl (by decide))).1,
    (ordering_check_flags_declaration_after_method (fileOrderingChecker.mk ruleFileOrdering)
      lineFileSet (goString "t.go") [] [] [] (structDecl 3 "T")
      (.GenDecl 9 .CONST [.ValueSpec [⟨goString "limit"⟩]]) (methodDecl 5 "t" "T" "M")
      (by decide) (Or.inl (by decide))).2.2⟩

end checks

namespace checks

/-- C18, refuted.  There is no sequence of declarations, none skipped, with a
declaration whose section is strictly lower than the section of the
declaration immediately before it and which the ordering check does not flag:
the running maximum is at least the section of the declaration before. -/
theorem no_unflagged_drop_below_previous :
    ¬ ∃ (fileSet : token.FileSet) (ds : List ast.Decl) (i : Nat) (prev d : ast.Decl),
        (∀ x ∈ ds, skipped fileSet x = false) ∧ ds[i]? = some prev ∧ ds[i + 1]? = some d ∧
        sectionOf fileSet d < sectionOf fileSet prev ∧ flaggedAt fileSet ds (i + 1) = false := by
  rintro ⟨fileSet, ds, i, prev, d, hall, hprev, hd, hlt, hnot⟩
  have hkp := hall prev (List.mem_of_mem_take (mem_take_succ_of_getElem? ds i prev hprev))
  have hkd := hall d (List.mem_of_mem_take (mem_take_succ_of_getElem? ds (i + 1) d hd))
  rw [flaggedAt_of_lower_than_previous fileSet ds i prev d hprev hd hkp hkd hlt] at hnot
  exact Bool.noConfusion hnot

/-- C18, amended.  In every sequence of declarations, none skipped, a
declaration whose section is strictly lower than the section of the
declaration immediately before it is flagged, and the ordering check returns
its violation against the running maximum.  The comparison with the running
maximum shows the other way round: a declaration that is not lower than the
declaration immediately before it is flagged when it is below the maximum, as
the var after the const in a file that starts with a function. -/
theorem drop_below_previous_is_flagged (c : fileOrderingChecker) (fileSet : token.FileSet)
    (filename : GoString) (ds : List ast.Decl) (i : Nat) (prev d : ast.Decl)
    (hall : ∀ x ∈ ds, skipped fileSet x = false)
    (hprev : ds[i]? = some prev) (hd : ds[i + 1]? = some d)
    (hlt : sectionOf fileSet d < sectionOf fileSet prev) :
    flaggedAt fileSet ds (i + 1) = true
      ∧ sectionOf fileSet prev ≤ highWater fileSet (ds.take (i + 1))
      ∧ c.violation filename (fileSet.Position (declPos d)) (sectionOf fileSet d)
          (highWater fileSet (ds.take (i + 1))) ∈ c.check fileSet ⟨ds⟩ filename
      ∧ ((∀ x ∈ riseAfterRegressionFile.Decls, skipped lineFileSet x = false) ∧
          sectionOf lineFileSet (.GenDecl 2 .CONST [.ValueSpec [⟨goString "c"⟩]]) ≤
            sectionOf lineFileSet (.GenDecl 3 .VAR [.ValueSpec [⟨goString "v"⟩]]) ∧
          flaggedAt lineFileSet riseAfterRegressionFile.Decls 2 = true) := by
  have hkp := hall prev (List.mem_of_mem_take (mem_take_succ_of_getElem? ds i prev hprev))
  have hkd := hall d (List.mem_of_mem_take (mem_take_succ_of_getElem? ds (i + 1) d hd))
  have hf := flaggedAt_of_lower_than_previous fileSet ds i prev d hprev hd hkp hkd hlt
  refine ⟨hf, ?_, flagged_violation_mem c fileSet filename ds (i + 1) d hd hf, by decide⟩
  exact sectionOf_le_highWater fileSet (ds.take (i + 1)) prev
    (mem_take_succ_of_getElem? ds i prev hprev) hkp

/-- Witness of the amended C18: in the file with a function, a struct type
and a const, the const is lower than the type before it and is flagged. -/
theorem drop_below_previous_is_flagged_witness :
    flaggedAt lineFileSet twoRegressionsFile.Decls 2 = true
      ∧ (⟨ruleFileOrdering, goString "two.go", 3,
          goString "constants section appears after functions section", SeverityError, []⟩ :
          Violation) ∈
        (fileOrderingChecker.mk ruleFileOrdering).check lineFileSet twoRegressionsFile
          (goString "two.go") :=
  ⟨(drop_below_previous_is_flagged (fileOrderingChecker.mk ruleFileOrdering) lineFileSet
      (goString "two.go") twoRegressionsFile.Decls 1 (structDecl 2 "T")
      (.GenDecl 3 .CONST [.ValueSpec [⟨goString "c"⟩]]) (by decide) (by decide) (by decide)
      (by decide)).1,
    (drop_below_previous_is_flagged (fileOrderingChecker.mk ruleFileOrdering) lineFileSet
      (goString "two.go") twoRegressionsFile.Decls 1 (structDecl 2 "T")
      (.GenDecl 3 .CONST [.ValueSpec [⟨goString "c"⟩]]) (by decide) (by decide) (by decide)
      (by decide)).2.2.1⟩

/-- C20. Every violation of the ordering check has the message
"<a> section appears after <b> section" where a is the name of a section S in
Import..Type and b the name of a section H in Const..Func with S strictly
below H: a is one of imports, constants, variables, interfaces, types and b
one of constants, variables, interfaces, types, functions, so that none and
unknown never occur, a is never functions and b is never imports.  A
declaration before which every declaration is skipped, so the first
declaration that is not skipped, is never flagged. -/
theorem ordering_message_sections (c : fileOrderingChecker) (fileSet : token.FileSet)
    (filename : GoString) (ds : List ast.Decl) :
    (∀ v ∈ c.check fileSet ⟨ds⟩ filename, ∃ S H : sectionKind,
        sectionImport ≤ S ∧ S ≤ sectionType ∧ sectionConst ≤ H ∧ H ≤ sectionFunc ∧ S < H ∧
        v.Message = sectionName S ++ goString " section appears after " ++ sectionName H
          ++ goString " section" ∧
        sectionName S ∈ [goString "imports", goString "constants", goString "variables",
          goString "interfaces", goString "types"] ∧
        sectionName H ∈ [goString "constants", goString "variables", goString "interfaces",
          goString "types", goString "functions"] ∧
        sectionName S ≠ goString "none" ∧ sectionName S ≠ goString "unknown" ∧
        sectionName S ≠ goString "functions" ∧
        sectionName H ≠ goString "none" ∧ sectionName H ≠ goString "unknown" ∧
        sectionName H ≠ goString "imports")
      ∧ (∀ i, (∀ x ∈ ds.take i, skipped fileSet x = true) → flaggedAt fileSet ds i = false) := by
  constructor
  · intro v hv
    obtain ⟨i, d, _, hk, hlt, rfl⟩ := ordering_check_mem c fileSet filename ds v hv
    have hnn : @LE.le Int _ 0 (sectionOf fileSet d) := sectionOf_nonneg fileSet d
    have hne : @Ne Int (sectionOf fileSet d) 0 := by
      intro h0
      have h1 : sectionOf fileSet d = sectionNone := h0
      simp [skipped, h1] at hk
    have hH : @LE.le Int _ (highWater fileSet (ds.take i)) 6 :=
      highWater_le_func fileSet (ds.take i)
    have hlt2 : @LT.lt Int _ (sectionOf fileSet d) (highWater fileSet (ds.take i)) := hlt
    refine ⟨sectionOf fileSet d, highWater fileSet (ds.take i), ?_, ?_, ?_, hH, hlt, rfl, ?_⟩
    · show @LE.le Int _ 1 (sectionOf fileSet d)
      omega
    · show @LE.le Int _ (sectionOf fileSet d) 5
      omega
    · show @LE.le Int _ 2 (highWater fileSet (ds.take i))
      omega
    · have hS : @Eq Int (sectionOf fileSet d) 1 ∨ @Eq Int (sectionOf fileSet d) 2 ∨
          @Eq Int (sectionOf fileSet d) 3 ∨ @Eq Int (sectionOf fileSet d) 4 ∨
          @Eq Int (sectionOf fileSet d) 5 := by
        omega
      have hHv : @Eq Int (highWater fileSet (ds.take i)) 2 ∨
          @Eq Int (highWater fileSet (ds.take i)) 3 ∨
          @Eq Int (highWater fileSet (ds.take i)) 4 ∨
          @Eq Int (highWater fileSet (ds.take i)) 5 ∨
          @Eq Int (highWater fileSet (ds.take i)) 6 := by
        omega
      have hSn : ∀ s : sectionKind, s = 1 ∨ s = 2 ∨ s = 3 ∨ s = 4 ∨ s = 5 →
          sectionName s ∈ [goString "imports", goString "constants", goString "variables",
            goString "interfaces", goString "types"] ∧
          sectionName s ≠ goString "none" ∧ sectionName s ≠ goString "unknown" ∧
          sectionName s ≠ goString "functions" := by
        intro s hs
        rcases hs with h | h | h | h | h <;> rw [h] <;> decide
      have hHn : ∀ s : sectionKind, s = 2 ∨ s = 3 ∨ s = 4 ∨ s = 5 ∨ s = 6 →
          sectionName s ∈ [goString "constants", goString "variables", goString "interfaces",
            goString "types", goString "functions"] ∧
          sectionName s ≠ goString "none" ∧ sectionName s ≠ goString "unknown" ∧
          sectionName s ≠ goString "imports" := by
        intro s hs
        rcases hs with h | h | h | h | h <;> rw [h] <;> decide
      obtain ⟨a1, a2, a3, a4⟩ := hSn _ hS
      obtain ⟨b1, b2, b3, b4⟩ := hHn _ hHv
      exact ⟨a1, b1, a2, a3, a4, b2, b3, b4⟩
  · intro i hall
    unfold flaggedAt
    cases hd : ds[i]? with
    | none => rfl
    | some d =>
      have hhw := highWater_of_all_skipped fileSet (ds.take i) hall
      have hnn := sectionOf_nonneg fileSet d
      simp [hhw, not_lt.mpr hnn]

/-- Witness of C20: in testdata/ordering_init.go the const on line 10 comes
after an import and func init only; with the import removed every declaration
before it is skipped, and it is not flagged. -/
theorem ordering_message_sections_witness :
    flaggedAt lineFileSet
        [plainFunc 6 "init", .GenDecl 10 .CONST [.ValueSpec [⟨goString "initConst"⟩]]] 1 = false
      ∧ flaggedAt lineFileSet orderingBadFile.Decls 0 = false :=
  ⟨(ordering_message_sections (fileOrderingChecker.mk ruleFileOrdering) lineFileSet
      (goString "x.go")
      [plainFunc 6 "init", .GenDecl 10 .CONST [.ValueSpec [⟨goString "initConst"⟩]]]).2 1
      (by decide),
    (ordering_message_sections (fileOrderingChecker.mk ruleFileOrdering) lineFileSet
      (goString "x.go") orderingBadFile.Decls).2 0 (by decide)⟩

end checks

/-! ## Receivers: the claims -/

namespace checks

theorem checkBody_withRecv (c : fileOrderingChecker) (fileSet : token.FileSet)
    (filename : GoString) (recv : ast.FuncDecl → Option ast.FieldList)
    (st : List Violation × sectionKind) (d : ast.Decl) :
    c.checkBody fileSet filename st (withRecv recv d) = c.checkBody fileSet filename st d := by
  cases d with
  | GenDecl p t specs => rfl
  | FuncDecl fn => rfl
  | BadDecl p => rfl

theorem foldl_map_of_step_eq {σ α : Type} (f : σ → α → σ) (g : α → α)
    (h : ∀ st x, f st (g x) = f st x) (l : List α) (st : σ) :
    (l.map g).foldl f st = l.foldl f st := by
  induction l generalizing st with
  | nil => rfl
  | cons x xs ih => rw [List.map_cons, List.foldl_cons, List.foldl_cons, h, ih]

theorem keptSections_of_all_init (fileSet : token.FileSet) (ds : List ast.Decl)
    (h : ∀ x ∈ ds, isInitFuncDecl x = true) : keptSections fileSet ds = [] := by
  unfold keptSections
  rw [List.map_eq_nil_iff, List.filter_eq_nil_iff]
  intro d hd
  simp [skipped, h d hd]

/-- C21. The ordering check skips every function declaration whose identifier
is init, with or without a receiver: the test of the loop does not read the
receiver, an iteration on such a declaration changes neither the violations
nor the high-water mark, the check returns the same violations with the
declaration removed and with any receivers changed or removed, and a
declaration that follows only such declarations is not flagged. -/
theorem ordering_check_skips_init_methods (c : fileOrderingChecker) (fileSet : token.FileSet)
    (filename : GoString) :
    (∀ (recv : Option ast.FieldList) (typ : ast.FuncType),
        isInitFuncDecl (.FuncDecl ⟨recv, ⟨goString "init"⟩, typ⟩) = true)
      ∧ (∀ (st : List Violation × sectionKind) (fn : ast.FuncDecl),
          fn.Name.Name = goString "init" →
          c.checkBody fileSet filename st (.FuncDecl fn) = st)
      ∧ (∀ (pre post : List ast.Decl) (fn : ast.FuncDecl),
          fn.Name.Name = goString "init" →
          c.check fileSet ⟨pre ++ .FuncDecl fn :: post⟩ filename =
            c.check fileSet ⟨pre ++ post⟩ filename)
      ∧ (∀ (recv : ast.FuncDecl → Option ast.FieldList) (ds : List ast.Decl),
          c.check fileSet ⟨ds.map (withRecv recv)⟩ filename = c.check fileSet ⟨ds⟩ filename)
      ∧ (∀ (ds : List ast.Decl) (i : Nat) (fn : ast.FuncDecl),
          ds[i]? = some (.FuncDecl fn) → fn.Name.Name = goString "init" →
          flaggedAt fileSet ds i = false ∧
            highWater fileSet (ds.take (i + 1)) = highWater fileSet (ds.take i))
      ∧ (∀ (inits : List ast.Decl) (d : ast.Decl),
          (∀ x ∈ inits, isInitFuncDecl x = true) →
          flaggedAt fileSet (inits ++ [d]) inits.length = false ∧
            c.check fileSet ⟨inits ++ [d]⟩ filename = []) := by
  have hinit : ∀ fn : ast.FuncDecl, fn.Name.Name = goString "init" →
      isInitFuncDecl (.FuncDecl fn) = true := by
    intro fn h
    simp [isInitFuncDecl, h]
  refine ⟨?_, ?_, ?_, ?_, ?_, ?_⟩
  · intro recv typ
    exact hinit _ rfl
  · intro st fn h
    exact checkBody_init c fileSet filename st _ (hinit fn h)
  · intro pre post fn h
    unfold fileOrderingChecker.check
    simp only [List.foldl_append, List.foldl_cons]
    rw [checkBody_init c fileSet filename _ _ (hinit fn h)]
  · intro recv ds
    unfold fileOrderingChecker.check
    simp only []
    rw [foldl_map_of_step_eq _ _ (checkBody_withRecv c fileSet filename recv)]
  · intro ds i fn hd h
    refine ⟨flaggedAt_funcDecl fileSet ds i fn hd, ?_⟩
    rw [List.take_succ, hd]
    exact highWater_snoc_skipped fileSet (ds.take i) _ (by simp [skipped, hinit fn h])
  · intro inits d hall
    have hk := keptSections_of_all_init fileSet inits hall
    constructor
    · unfold flaggedAt
      have hidx : (inits ++ [d])[inits.length]? = some d := by
        rw [List.getElem?_append_right (le_refl _)]; simp
      have hhw : highWater fileSet inits = sectionNone := by
        simp [highWater, hk]
      have hnn := sectionOf_nonneg fileSet d
      simp [hidx, hhw, hnn]
    · rw [ordering_check_nil_iff, keptSections_append, hk, List.nil_append]
      unfold keptSections
      by_cases hs : skipped fileSet d = true
      · simp [hs]
      · simp [hs]

/-- Witness of C21: the method `func (s Server) init()` is skipped, and the
const that follows only this method is not flagged. -/
theorem ordering_check_skips_init_methods_witness :
    (fileOrderingChecker.mk ruleFileOrdering).checkBody lineFileSet (goString "server.go")
        ([], sectionNone) (.FuncDecl (methodDecl 3 "s" "Server" "init")) = ([], sectionNone)
      ∧ (fileOrderingChecker.mk ruleFileOrdering).check lineFileSet initMethodFile
          (goString "server.go") = []
      ∧ (fileOrderingChecker.mk ruleFileOrdering).check lineFileSet
          ⟨[.FuncDecl (methodDecl 3 "s" "Server" "Start"),
            .GenDecl 7 .CONST [.ValueSpec [⟨goString "limit"⟩]]]⟩ (goString "server.go") ≠ [] :=
  ⟨(ordering_check_skips_init_methods (fileOrderingChecker.mk ruleFileOrdering) lineFileSet
      (goString "server.go")).2.1 ([], sectionNone) (methodDecl 3 "s" "Server" "init")
      (by decide),
    ((ordering_check_skips_init_methods (fileOrderingChecker.mk ruleFileOrdering) lineFileSet
      (goString "server.go")).2.2.2.2.2 [.FuncDecl (methodDecl 3 "s" "Server" "init")]
      (.GenDecl 7 .CONST [.ValueSpec [⟨goString "limit"⟩]]) (by decide)).2,
    by decide⟩

end checks

namespace checks

theorem countParams_some (fields : List ast.Field) :
    countParams (some ⟨fields⟩) = (fields.map fieldParams).sum := by
  simp only [countParams]
  rw [countParams_loop]
  simp

/-- C22. The parameter check reads the parameter list of a declaration and
not its receiver: the count, the callback of check and the violations of a
file are the same when receivers are changed or removed, a method with
exactly maxParams parameters adds no violation whatever its receiver, and a
variadic parameter, a final field of type `...T` with one name or none, adds
one to the count, the count not depending on the types of the fields. -/
theorem param_count_ignores_receiver (c : paramCountChecker) (fileSet : token.FileSet)
    (filename : GoString) :
    (∀ (fn : ast.FuncDecl) (recv : Option ast.FieldList),
        countParams ({ fn with Recv := recv } : ast.FuncDecl).Typ.Params =
          countParams fn.Typ.Params)
      ∧ (∀ (vs : List Violation) (fn : ast.FuncDecl) (recv : Option ast.FieldList),
          c.visit fileSet filename vs { fn with Recv := recv } =
            c.visit fileSet filename vs fn)
      ∧ (∀ (recv : ast.FuncDecl → Option ast.FieldList) (ds : List ast.Decl),
          c.check fileSet ⟨ds.map (withRecv recv)⟩ filename = c.check fileSet ⟨ds⟩ filename)
      ∧ (∀ (vs : List Violation) (fn : ast.FuncDecl),
          countParams fn.Typ.Params = c.maxParams → c.visit fileSet filename vs fn = vs)
      ∧ (∀ (fields : List ast.Field) (names : List ast.Ident) (elt : ast.Expr),
          names.length ≤ 1 →
          countParams (some ⟨fields ++ [⟨names, .Ellipsis elt⟩]⟩) =
            countParams (some ⟨fields⟩) + 1)
      ∧ (∀ (fields : List ast.Field) (t : ast.Field → ast.Expr),
          countParams (some ⟨fields.map (fun f => { f with Typ := t f })⟩) =
            countParams (some ⟨fields⟩)) := by
  refine ⟨fun fn recv => rfl, fun vs fn recv => rfl, ?_, ?_, ?_, ?_⟩
  · intro recv ds
    unfold paramCountChecker.check ast.Inspect
    simp only []
    apply foldl_map_of_step_eq
    intro st d
    cases d with
    | GenDecl p t specs => rfl
    | FuncDecl fn => rfl
    | BadDecl p => rfl
  · intro vs fn h
    simp [paramCountChecker.visit, h]
  · intro fields names elt hlen
    rw [countParams_some, countParams_some, List.map_append, List.sum_append]
    have hf : fieldParams ⟨names, .Ellipsis elt⟩ = 1 := by
      cases names with
      | nil => simp [fieldParams]
      | cons n rest =>
        cases rest with
        | nil => simp [fieldParams]
        | cons m rest2 => simp at hlen
    simp [hf]
  · intro fields t
    rw [countParams_some, countParams_some, List.map_map]
    rfl

/-- Witness of C22: the method Logf, with a receiver and the four parameters
`level int, format, sep string, args ...any`, adds no violation for the maximum
4, and its variadic parameter adds one to the count of the other three. -/
theorem param_count_ignores_receiver_witness :
    countParams variadicMethod.Typ.Params = 4
      ∧ (paramCountChecker.mk 4 ruleParamCount).visit lineFileSet (goString "log.go") []
          variadicMethod = []
      ∧ countParams (some ⟨[paramField ["level"] "int", paramField ["format", "sep"] "string"]
          ++ [⟨[⟨goString "args"⟩], .Ellipsis (.Ident (goString "any"))⟩]⟩) =
        countParams (some ⟨[paramField ["level"] "int",
          paramField ["format", "sep"] "string"]⟩) + 1
      ∧ (paramCountChecker.mk 3 ruleParamCount).check lineFileSet
          ⟨[.FuncDecl variadicMethod]⟩ (goString "log.go") =
        (paramCountChecker.mk 3 ruleParamCount).check lineFileSet
          ⟨[.FuncDecl { variadicMethod with Recv := none }]⟩ (goString "log.go")
      ∧ (paramCountChecker.mk 3 ruleParamCount).check lineFileSet
          ⟨[.FuncDecl variadicMethod]⟩ (goString "log.go") =
        [⟨ruleParamCount, goString "log.go", 5, goString "Logf() has 4 parameters (max 3)",
          SeverityError, goString "Use options pattern or config struct"⟩] :=
  ⟨by decide,
    (param_count_ignores_receiver (paramCountChecker.mk 4 ruleParamCount) lineFileSet
      (goString "log.go")).2.2.2.1 [] variadicMethod (by decide),
    (param_count_ignores_receiver (paramCountChecker.mk 4 ruleParamCount) lineFileSet
      (goString "log.go")).2.2.2.2.1 _ _ _ (by decide),
    ((param_count_ignores_receiver (paramCountChecker.mk 3 ruleParamCount) lineFileSet
      (goString "log.go")).2.2.1 (fun _ => none) [.FuncDecl variadicMethod]).symm,
    by decide⟩

end checks
